import Mathlib

/-!
Shallow embedding of the `habib` bidirectional map (`src/src/lib.rs`) and proofs
about it.

Modelling conventions:
* Left and right values are modelled as `Nat` (the repository's tests use `usize`).
* A `BuildHasher` is modelled as a plain function `Nat → Nat` giving the 64-bit
  `finish()` value of an element; `hash_to_index` reduces it modulo the capacity,
  exactly as `BiMap::hash_to_index` does with `finish() as usize % capacity`.
* The sentinel `EMPTY_SLOT = usize::MAX` that marks an unoccupied index slot is
  modelled as `none : Option Nat`; an occupied slot holding bucket number `b` is
  `some b`.  The source only ever compares slots against the sentinel
  (`hash_index[index] < EMPTY_SLOT` is the occupancy test), so this is a faithful
  renaming of the slot state space.
* `usize` subtraction with `wrapping_sub` is modelled with an explicit `% 2^64`.
* Rust panics (failed `assert!`/`unwrap`, out-of-bounds indexing, `%` by zero)
  and loops that would not terminate are modelled by returning `none`; every
  loop carries fuel that provably suffices on all inputs on which the Rust loop
  terminates (`capacity + 1` steps; see the termination lemmas below).
-/

namespace Habib

/-- Width of `usize` arithmetic (the code targets 64-bit platforms). -/
def U64 : Nat := 2 ^ 64

/-- Model of `usize::wrapping_sub` for operands below `2^64`. -/
def wrappingSub (a b : Nat) : Nat := (a + U64 - b) % U64

/-- One stored pair; `Bucket` in the source. -/
structure Bucket where
  left : Nat
  right : Nat
deriving DecidableEq

/-- Result of `BiMap::probe_index` (`Result<usize, usize>` in the source):
`found i` is `Ok(i)` (element stored at index slot `i`), `insertAt i` is
`Err(i)` (element absent; `i` is the reported insertion point). -/
inductive ProbeResult where
  | found (i : Nat)
  | insertAt (i : Nat)
deriving DecidableEq

/-- The bidirectional map state (`BiMap` in the source).  The two hashers are
kept as function fields, mirroring the `hasher`/`reverse_hasher` fields. -/
structure BiMap where
  data : List Bucket
  left_index : List (Option Nat)
  right_index : List (Option Nat)
  hasher : Nat → Nat
  reverse_hasher : Nat → Nat

/-- `BiMap::hash_to_index`: `hasher.finish() as usize % capacity`. -/
def hash_to_index (h : Nat → Nat) (element capacity : Nat) : Nat :=
  h element % capacity

/-- The probe distance the source ascribes to a resident of slot `index` whose
ideal slot is `ideal`: `index.wrapping_sub(ideal).rem_euclid(capacity)` (line
130 of `lib.rs`).  On `usize`, `rem_euclid` is plain `%`, so this is
`((index + 2^64 - ideal) % 2^64) % capacity`. -/
def probe_distance (index ideal capacity : Nat) : Nat :=
  wrappingSub index ideal % capacity

/-- Loop body of `BiMap::probe_index` (lines 125-138).  The fuel argument
bounds the number of loop iterations; `probe_index` supplies `capacity + 1`,
which is proved sufficient below (`probeGo_isSome`). -/
def probeGo (hash_index : List (Option Nat)) (h : Nat → Nat)
    (lookup : Bucket → Nat) (buckets : List Bucket) (capacity element : Nat) :
    Nat → Nat → Nat → Option ProbeResult
  | 0, _, _ => none
  | fuel + 1, index, dist =>
    match hash_index.get? index with
    | none => none
    | some none => some (ProbeResult.insertAt index)
    | some (some bi) =>
      match buckets.get? bi with
      | none => none
      | some bucket =>
        if lookup bucket = element then
          some (ProbeResult.found index)
        else if probe_distance index (hash_to_index h (lookup bucket) capacity) capacity < dist then
          some (ProbeResult.insertAt index)
        else
          probeGo hash_index h lookup buckets capacity element fuel
            ((index + 1) % capacity) (dist + 1)

/-- `BiMap::probe_index` (lines 119-140).  `capacity = 0` would make
`hash_to_index` divide by zero, a Rust panic. -/
def probe_index (element : Nat) (hash_index : List (Option Nat)) (h : Nat → Nat)
    (lookup : Bucket → Nat) (buckets : List Bucket) (capacity : Nat) :
    Option ProbeResult :=
  if capacity = 0 then none
  else probeGo hash_index h lookup buckets capacity element (capacity + 1)
    (hash_to_index h element capacity) 0

/-- `BiMap::current_capacity` (line 364): the length of the left index array. -/
def BiMap.current_capacity (m : BiMap) : Nat := m.left_index.length

/-- `BiMap::len` (line 615). -/
def BiMap.len (m : BiMap) : Nat := m.data.length

/-- `BiMap::is_empty` (line 620). -/
def BiMap.is_empty (m : BiMap) : Bool := m.data.isEmpty

/-- `BiMap::lookup_index_left` (lines 178-180). -/
def BiMap.lookup_index_left (m : BiMap) (left : Nat) : Option ProbeResult :=
  probe_index left m.left_index m.hasher Bucket.left m.data m.current_capacity

/-- `BiMap::lookup_index_right` (lines 195-197). -/
def BiMap.lookup_index_right (m : BiMap) (right : Nat) : Option ProbeResult :=
  probe_index right m.right_index m.reverse_hasher Bucket.right m.data m.current_capacity

/-- Loop of `BiMap::insert_mapping` (lines 290-297): walk forward from the
start slot, swapping the carried content with each resident, until an empty
slot receives the carried content.  Fuel exhaustion (`none`) corresponds to
the Rust loop never finding an empty slot, i.e. not terminating. -/
def insertMappingGo : Nat → List (Option Nat) → Nat → Nat → Option (List (Option Nat))
  | 0, _, _, _ => none
  | fuel + 1, meta_index, mapping_index, current_content =>
    match meta_index.get? mapping_index with
    | none => none
    | some none => some (meta_index.set mapping_index (some current_content))
    | some (some resident) =>
      insertMappingGo fuel (meta_index.set mapping_index (some current_content))
        ((mapping_index + 1) % meta_index.length) resident

/-- `BiMap::insert_mapping` (lines 290-297). -/
def insert_mapping (meta_index : List (Option Nat)) (mapping_index bucket_index : Nat) :
    Option (List (Option Nat)) :=
  insertMappingGo (meta_index.length + 1) meta_index mapping_index bucket_index

/-- Loop of `BiMap::delete_mapping_left` / `delete_mapping_right` (lines
329-339 / 350-360): backward-shift deletion.  While the next slot holds a
resident whose ideal slot differs from the current position, swap it one
position backward (wrapping) and advance.  The source's loop condition
`ideal.wrapping_sub(current) != 0` is `ideal ≠ current` for values below
`2^64`. -/
def deleteMappingGo (h : Nat → Nat) (lookup : Bucket → Nat) (data : List Bucket)
    (capacity : Nat) :
    Nat → List (Option Nat) → Nat → Option (List (Option Nat))
  | 0, _, _ => none
  | fuel + 1, meta_index, current_mapping_index =>
    match meta_index.get? current_mapping_index with
    | none => none
    | some none => some meta_index
    | some (some neighbor) =>
      match data.get? neighbor with
      | none => none
      | some bucket =>
        if hash_to_index h (lookup bucket) capacity = current_mapping_index then
          some meta_index
        else
          let prev := if current_mapping_index = 0 then capacity - 1
            else current_mapping_index - 1
          match meta_index.get? prev, meta_index.get? current_mapping_index with
          | some a, some b =>
            deleteMappingGo h lookup data capacity fuel
              ((meta_index.set prev b).set current_mapping_index a)
              ((current_mapping_index + 1) % capacity)
          | _, _ => none

/-- `BiMap::delete_mapping_left` / `delete_mapping_right` (lines 322-340 /
343-361), parameterised over the side.  The slot is first overwritten with the
sentinel, then the backward shift runs from the following position. -/
def delete_mapping (h : Nat → Nat) (lookup : Bucket → Nat) (data : List Bucket)
    (capacity : Nat) (meta_index : List (Option Nat)) (mapping_index : Nat) :
    Option (List (Option Nat)) :=
  if capacity = 0 then none
  else if mapping_index < meta_index.length then
    deleteMappingGo h lookup data capacity (capacity + 1)
      (meta_index.set mapping_index none) ((mapping_index + 1) % capacity)
  else none

/-- Convenience wrapper used below: resolve the bucket number stored in an
index slot, failing (like Rust's `data[EMPTY_SLOT]`) if the slot is empty or
out of bounds. -/
def slotBucket (idx : List (Option Nat)) (i : Nat) : Option Nat :=
  match idx.get? i with
  | some (some b) => some b
  | _ => none

/-- `BiMap::get_right` (lines 400-404). The outer `Option` is the panic/divergence
layer of the model; the inner `Option` is the `Option<&U>` the source returns. -/
def BiMap.get_right (m : BiMap) (left : Nat) : Option (Option Nat) :=
  match m.lookup_index_left left with
  | none => none
  | some (ProbeResult.insertAt _) => some none
  | some (ProbeResult.found i) =>
    match slotBucket m.left_index i with
    | none => none
    | some bi =>
      match m.data.get? bi with
      | none => none
      | some bucket => some (some bucket.right)

/-- `BiMap::get_left` (lines 409-413). -/
def BiMap.get_left (m : BiMap) (right : Nat) : Option (Option Nat) :=
  match m.lookup_index_right right with
  | none => none
  | some (ProbeResult.insertAt _) => some none
  | some (ProbeResult.found i) =>
    match slotBucket m.right_index i with
    | none => none
    | some bi =>
      match m.data.get? bi with
      | none => none
      | some bucket => some (some bucket.left)

/-- `BiMap::contains_left` (lines 417-419). -/
def BiMap.contains_left (m : BiMap) (left : Nat) : Option Bool :=
  match m.lookup_index_left left with
  | none => none
  | some (ProbeResult.found _) => some true
  | some (ProbeResult.insertAt _) => some false

/-- `BiMap::contains_right` (lines 423-425). -/
def BiMap.contains_right (m : BiMap) (right : Nat) : Option Bool :=
  match m.lookup_index_right right with
  | none => none
  | some (ProbeResult.found _) => some true
  | some (ProbeResult.insertAt _) => some false

/-- `BiMap::push_new_bucket` (lines 208-212). -/
def BiMap.push_new_bucket (m : BiMap) (bucket : Bucket) (left_idx right_idx : Nat) :
    Option BiMap := do
  let data := m.data ++ [bucket]
  let li ← insert_mapping m.left_index left_idx (data.length - 1)
  let ri ← insert_mapping m.right_index right_idx (data.length - 1)
  some { m with data := data, left_index := li, right_index := ri }

/-- `BiMap::delete_mapping_left` as a state transformer (lines 322-340). -/
def BiMap.delete_mapping_left (m : BiMap) (mapping_index : Nat) : Option BiMap := do
  let li ← delete_mapping m.hasher Bucket.left m.data m.current_capacity
    m.left_index mapping_index
  some { m with left_index := li }

/-- `BiMap::delete_mapping_right` as a state transformer (lines 343-361);
note that the source's `current_capacity` is the *left* index length for both
sides. -/
def BiMap.delete_mapping_right (m : BiMap) (mapping_index : Nat) : Option BiMap := do
  let ri ← delete_mapping m.reverse_hasher Bucket.right m.data m.current_capacity
    m.right_index mapping_index
  some { m with right_index := ri }

/-- `BiMap::replace_bucket` (lines 272-277): swap a new bucket into the slot
and return the old one.  No index changes. -/
def BiMap.replace_bucket (m : BiMap) (bucket_index : Nat) (bucket : Bucket) :
    Option (BiMap × Bucket) :=
  if bucket_index < m.len then
    match m.data.get? bucket_index with
    | none => none
    | some old => some ({ m with data := m.data.set bucket_index bucket }, old)
  else none

/-- Resolution of `delete_bucket`'s `left_meta_index` parameter (lines 232-236):
use the given entry, or find it by looking up the bucket's left value; a failed
lookup makes the source's `unwrap` panic. -/
def BiMap.resolve_left_meta (m : BiMap) (bucket_index : Nat)
    (left_meta_index : Option Nat) : Option Nat :=
  match left_meta_index with
  | some i => some i
  | none => do
    let b ← m.data.get? bucket_index
    match (← m.lookup_index_left b.left) with
    | ProbeResult.found i => some i
    | ProbeResult.insertAt _ => none

/-- Resolution of `delete_bucket`'s `right_meta_index` parameter (lines 238-242). -/
def BiMap.resolve_right_meta (m : BiMap) (bucket_index : Nat)
    (right_meta_index : Option Nat) : Option Nat :=
  match right_meta_index with
  | some i => some i
  | none => do
    let b ← m.data.get? bucket_index
    match (← m.lookup_index_right b.right) with
    | ProbeResult.found i => some i
    | ProbeResult.insertAt _ => none

/-- Tail of `delete_bucket` (lines 244-267): either pop the last bucket, or
swap the last bucket into the freed slot, repointing its two index entries
(found by lookup, `unwrap`ped by the source), and pop. -/
def BiMap.swap_remove_tail (m2 : BiMap) (bucket_index : Nat) : Option (BiMap × Bucket) := do
  if bucket_index = m2.len - 1 then
    let bucket ← m2.data.get? bucket_index
    some ({ m2 with data := m2.data.take (m2.len - 1) }, bucket)
  else
    let bucket_to_move ← m2.data.get? (m2.len - 1)
    match (← m2.lookup_index_left bucket_to_move.left),
          (← m2.lookup_index_right bucket_to_move.right) with
    | ProbeResult.found li, ProbeResult.found ri =>
      let deleted ← m2.data.get? bucket_index
      some ({ m2 with
               data := (m2.data.set bucket_index bucket_to_move).take (m2.len - 1),
               left_index := m2.left_index.set li (some bucket_index),
               right_index := m2.right_index.set ri (some bucket_index) }, deleted)
    | _, _ => none

/-- `BiMap::delete_bucket` (lines 229-268): delete both index mappings (the
ones given, or found by lookup), then dense swap-remove the bucket, repointing
the relocated last bucket's two index entries.  Any failed internal `unwrap`
or out-of-bounds access is a Rust panic, modelled as `none`. -/
def BiMap.delete_bucket (m : BiMap) (bucket_index : Nat)
    (left_meta_index right_meta_index : Option Nat) : Option (BiMap × Bucket) := do
  if bucket_index < m.len then
    let lmi ← m.resolve_left_meta bucket_index left_meta_index
    let m1 ← m.delete_mapping_left lmi
    let rmi ← m1.resolve_right_meta bucket_index right_meta_index
    let m2 ← m1.delete_mapping_right rmi
    m2.swap_remove_tail bucket_index
  else none

/-- `MAX_LOAD_FACTOR`-scaled capacity check, `BiMap::can_fit` (lines 369-371).
The source computes `((len + num) as f64) < (cap as f64 * 0.9)`.  This model
uses the exact integer comparison `10*(len+num) < 9*cap`.  The two coincide
for every capacity below `2^50`: the `f64` literal `0.9` is exactly
`8106479329266893/2^53 = 9/10 + δ` with `δ < 2.3e-17`, so `cap * 0.9_f64`
differs from `cap * 9/10` by less than `cap * 2.3e-17 + ulp`, which cannot move
the comparison across the integer `len + num` while `cap < 2^50` (the nearest
non-equal integer is at distance ≥ 1/10).  Buckets are 16 bytes, so any map
that can exist in a 64-bit address space is far below this bound. -/
def BiMap.can_fit (m : BiMap) (num : Nat) : Bool :=
  10 * (m.len + num) < 9 * m.current_capacity

/-- `BiMap::apply_load_factor` (lines 79-81).  The source computes
`(capacity as f64 / 0.9) as usize + 1`; for every capacity below `2^50` that
equals `⌊10 * capacity / 9⌋ + 1` (same rounding analysis as `can_fit`). -/
def apply_load_factor (capacity : Nat) : Nat :=
  10 * capacity / 9 + 1

/-- Loop of `BiMap::resize` (lines 380-386): re-probe every bucket against the
fresh index arrays, looking only at the prefix of buckets already reprocessed,
then Robin-Hood-insert its slot number into both indices.  A `found` result
would make the source's `unwrap_err` panic. -/
def resizeGo (hl hr : Nat → Nat) (data : List Bucket) (new_capacity : Nat) :
    Nat → List Bucket → List (Option Nat) → List (Option Nat) →
    Option (List (Option Nat) × List (Option Nat))
  | _, [], li, ri => some (li, ri)
  | bucket_index, bucket :: rest, li, ri => do
    match (← probe_index bucket.left li hl Bucket.left (data.take bucket_index) new_capacity),
          (← probe_index bucket.right ri hr Bucket.right (data.take bucket_index) new_capacity) with
    | ProbeResult.insertAt lei, ProbeResult.insertAt rei => do
      let li2 ← insert_mapping li lei bucket_index
      let ri2 ← insert_mapping ri rei bucket_index
      resizeGo hl hr data new_capacity (bucket_index + 1) rest li2 ri2
    | _, _ => none

/-- `BiMap::resize` (lines 374-390). -/
def BiMap.resize (m : BiMap) (new_capacity : Nat) : Option BiMap := do
  if m.len ≤ new_capacity then
    let p ← resizeGo m.hasher m.reverse_hasher m.data new_capacity 0 m.data
      (List.replicate new_capacity none) (List.replicate new_capacity none)
    some { m with left_index := p.1, right_index := p.2 }
  else none

/-- `BiMap::grow` (lines 393-395): `resize((cap as f64 * 2.0).ceil() as usize)`,
which is exactly `2 * cap` for any capacity below `2^52`. -/
def BiMap.grow (m : BiMap) : Option BiMap :=
  m.resize (2 * m.current_capacity)

/-- `BiMap::insert`, the shared tail of the `left_index.is_ok()` branch
(lines 480-488): delete the left bucket's current right-mapping, insert the
new right value's mapping pointing at the left bucket, and replace the left
bucket's contents.  `old_left` is threaded through from the caller. -/
def BiMap.insertIntoLeftBucket (m : BiMap) (left right left_bucket : Nat)
    (old_left : Option Nat) : Option (BiMap × Option Nat × Option Nat) := do
  let b ← m.data.get? left_bucket
  match (← m.lookup_index_right b.right) with
  | ProbeResult.found i => do
    let m1 ← m.delete_mapping_right i
    match (← m1.lookup_index_right right) with
    | ProbeResult.insertAt j => do
      let ri ← insert_mapping m1.right_index j left_bucket
      let m2 := { m1 with right_index := ri }
      let r ← m2.replace_bucket left_bucket (Bucket.mk left right)
      some (r.1, some r.2.right, old_left)
    | ProbeResult.found _ => none
  | ProbeResult.insertAt _ => none

/-- `BiMap::insert` (lines 442-505). Returns the new state together with the
`(old_right, old_left)` pair of the source. -/
def BiMap.insert (m : BiMap) (left right : Nat) :
    Option (BiMap × Option Nat × Option Nat) := do
  let m ← if m.can_fit 1 then some m else m.grow
  let lres ← m.lookup_index_left left
  let rres ← m.lookup_index_right right
  match lres with
  | ProbeResult.found left_meta_index => do
    let left_bucket ← slotBucket m.left_index left_meta_index
    match rres with
    | ProbeResult.found right_meta_index => do
      let right_bucket ← slotBucket m.right_index right_meta_index
      if left_bucket ≠ right_bucket then do
        let r ← m.delete_bucket right_bucket none (some right_meta_index)
        let m1 := r.1
        let left_bucket2 := if left_bucket = m1.len then right_bucket else left_bucket
        m1.insertIntoLeftBucket left right left_bucket2 (some r.2.left)
      else
        some (m, some right, some left)
    | ProbeResult.insertAt _ =>
      m.insertIntoLeftBucket left right left_bucket none
  | ProbeResult.insertAt left_ins =>
    match rres with
    | ProbeResult.found right_meta_index => do
      let right_bucket ← slotBucket m.right_index right_meta_index
      let b ← m.data.get? right_bucket
      match (← m.lookup_index_left b.left) with
      | ProbeResult.found i => do
        let m1 ← m.delete_mapping_left i
        let li ← insert_mapping m1.left_index left_ins right_bucket
        let m2 := { m1 with left_index := li }
        let r ← m2.replace_bucket right_bucket (Bucket.mk left right)
        some (r.1, none, some r.2.left)
      | ProbeResult.insertAt _ => none
    | ProbeResult.insertAt right_ins => do
      let m1 ← m.push_new_bucket (Bucket.mk left right) left_ins right_ins
      some (m1, none, none)

/-- Result of `BiMap::try_insert`: `ok` is `Ok(())`, `conflict r l` is
`Err((r, l))` with the existing right value bound to the left key and the
existing left value bound to the right key. -/
inductive TryResult where
  | ok
  | conflict (existing_right existing_left : Option Nat)
deriving DecidableEq

/-- `BiMap::try_insert` (lines 517-531).  Note the source computes both
insertion points *before* the possible `grow()` and reuses them afterwards. -/
def BiMap.try_insert (m : BiMap) (left right : Nat) : Option (BiMap × TryResult) := do
  let lres ← m.lookup_index_left left
  let rres ← m.lookup_index_right right
  match lres, rres with
  | ProbeResult.insertAt li, ProbeResult.insertAt ri => do
    let m1 ← if m.can_fit 1 then some m else m.grow
    let m2 ← m1.push_new_bucket (Bucket.mk left right) li ri
    some (m2, TryResult.ok)
  | _, _ => do
    let er ← match lres with
      | ProbeResult.found i => do
        let bi ← slotBucket m.left_index i
        let b ← m.data.get? bi
        some (some b.right)
      | ProbeResult.insertAt _ => some none
    let el ← match rres with
      | ProbeResult.found i => do
        let bi ← slotBucket m.right_index i
        let b ← m.data.get? bi
        some (some b.left)
      | ProbeResult.insertAt _ => some none
    some (m, TryResult.conflict er el)

/-- `BiMap::remove_left` (lines 535-546). -/
def BiMap.remove_left (m : BiMap) (left : Nat) : Option (BiMap × Option Nat) := do
  match (← m.lookup_index_left left) with
  | ProbeResult.found left_meta_index => do
    let b ← slotBucket m.left_index left_meta_index
    let r ← m.delete_bucket b (some left_meta_index) none
    some (r.1, some r.2.right)
  | ProbeResult.insertAt _ => some (m, none)

/-- `BiMap::remove_right` (lines 550-561). -/
def BiMap.remove_right (m : BiMap) (right : Nat) : Option (BiMap × Option Nat) := do
  match (← m.lookup_index_right right) with
  | ProbeResult.found right_meta_index => do
    let b ← slotBucket m.right_index right_meta_index
    let r ← m.delete_bucket b none (some right_meta_index)
    some (r.1, some r.2.left)
  | ProbeResult.insertAt _ => some (m, none)

/-- `BiMap::clear` (lines 593-597). -/
def BiMap.clear (m : BiMap) : BiMap :=
  { m with
    data := [],
    left_index := List.replicate m.left_index.length none,
    right_index := List.replicate m.right_index.length none }

/-- `BiMap::with_hashers` (lines 65-75): index arrays of exactly the given
capacity, no load-factor headroom. -/
def with_hashers (capacity : Nat) (hasher reverse_hasher : Nat → Nat) : BiMap :=
  { data := [],
    left_index := List.replicate capacity none,
    right_index := List.replicate capacity none,
    hasher := hasher, reverse_hasher := reverse_hasher }

/-- `BiMap::with_capacity` (lines 47-58): index arrays of
`apply_load_factor capacity` slots.  The source draws two fresh `RandomState`
hashers; they are modelled as parameters, since the claims quantify over
deterministic caller-supplied hash functions. -/
def with_capacity (capacity : Nat) (hasher reverse_hasher : Nat → Nat) : BiMap :=
  { data := [],
    left_index := List.replicate (apply_load_factor capacity) none,
    right_index := List.replicate (apply_load_factor capacity) none,
    hasher := hasher, reverse_hasher := reverse_hasher }

/-- Modelled from the spec: `drain()` is listed in the specification (§6,
"drain() -> lazy sequence of (left, right) that empties the structure as it is
consumed") and exercised by the repository's tests, but the method itself is
absent from `src/src/lib.rs`.  The model returns the fully consumed sequence —
the bucket store's pairs in slot order — together with the emptied structure
(bucket store cleared, both index arrays reset to all-empty, as `clear`). -/
def BiMap.drain (m : BiMap) : List (Nat × Nat) × BiMap :=
  (m.data.map (fun b => (b.left, b.right)), m.clear)

/-! ### Basic lemmas about lists, counting, and the loop helpers -/

theorem count_set_eq (l : List (Option Nat)) (i : Nat) (a e : Option Nat) (w : Option Nat)
    (h : l.get? i = some e) :
    (l.set i a).count w + (if e = w then 1 else 0) = l.count w + (if a = w then 1 else 0) := by
  induction l generalizing i with
  | nil => simp at h
  | cons x xs ih =>
    cases i with
    | zero =>
      simp only [List.get?] at h
      cases h
      simp [List.count_cons]
      omega
    | succ n =>
      simp only [List.get?] at h
      have := ih n h
      simp [List.count_cons]
      omega

theorem count_swap (l : List (Option Nat)) (p c : Nat) (a b : Option Nat)
    (hp : l.get? p = some a) (hc : l.get? c = some b) (w : Option Nat) :
    ((l.set p b).set c a).count w = l.count w := by
  by_cases hpc : p = c
  · subst hpc
    rw [hp] at hc
    cases hc
    rw [List.set_set]
    have := count_set_eq l p a a w hp
    omega
  · have h1 := count_set_eq l p b a w hp
    have hc2 : (l.set p b).get? c = some b := by
      rw [List.get?_set_ne _ _ hpc]
      exact hc
    have h2 := count_set_eq (l.set p b) c a b w hc2
    omega

theorem get?_exists_of_lt {α : Type} (l : List α) (i : Nat) (h : i < l.length) :
    ∃ x, l.get? i = some x :=
  ⟨l.get ⟨i, h⟩, List.get?_eq_get h⟩

theorem lt_of_get?_eq_some {α : Type} (l : List α) (i : Nat) (x : α)
    (h : l.get? i = some x) : i < l.length := by
  rw [List.get?_eq_some] at h
  exact h.1

theorem insertMappingGo_length (fuel : Nat) :
    ∀ (idx res : List (Option Nat)) (i c : Nat),
      insertMappingGo fuel idx i c = some res → res.length = idx.length := by
  induction fuel with
  | zero => intro idx res i c h; simp [insertMappingGo] at h
  | succ n ih =>
    intro idx res i c h
    rw [insertMappingGo] at h
    cases hg : idx.get? i with
    | none => rw [hg] at h; simp at h
    | some e =>
      rw [hg] at h
      cases e with
      | none =>
        simp at h
        rw [← h, List.length_set]
      | some r =>
        simp at h
        have := ih _ _ _ _ h
        rw [this, List.length_set]

theorem insert_mapping_length (idx res : List (Option Nat)) (i c : Nat)
    (h : insert_mapping idx i c = some res) : res.length = idx.length :=
  insertMappingGo_length _ _ _ _ _ h

theorem insertMappingGo_count (fuel : Nat) :
    ∀ (idx res : List (Option Nat)) (i c : Nat) (w : Option Nat),
      insertMappingGo fuel idx i c = some res →
      res.count w + (if (none : Option Nat) = w then 1 else 0)
        = idx.count w + (if some c = w then 1 else 0) := by
  induction fuel with
  | zero => intro idx res i c w h; simp [insertMappingGo] at h
  | succ n ih =>
    intro idx res i c w h
    rw [insertMappingGo] at h
    cases hg : idx.get? i with
    | none => rw [hg] at h; simp at h
    | some e =>
      rw [hg] at h
      cases e with
      | none =>
        simp at h
        rw [← h]
        exact count_set_eq idx i (some c) none w hg
      | some r =>
        simp at h
        have h1 := count_set_eq idx i (some c) (some r) w hg
        have h2 := ih _ _ _ _ w h
        omega

theorem insert_mapping_mem (idx res : List (Option Nat)) (i c : Nat) (v : Nat)
    (h : insert_mapping idx i c = some res) (hm : (some v) ∈ res) :
    (some v) ∈ idx ∨ v = c := by
  by_cases hvc : v = c
  · exact Or.inr hvc
  · left
    have hc := insertMappingGo_count _ _ _ _ _ (some v) h
    have hpos := List.count_pos_iff_mem.mpr hm
    have : idx.count (some v) > 0 := by
      have hne : ¬ ((none : Option Nat) = some v) := by simp
      have hne2 : ¬ (some c = some v) := by simp [hvc]; omega
      simp only [if_neg hne, if_neg hne2] at hc
      omega
    exact List.count_pos_iff_mem.mp this

theorem deleteMappingGo_length (h : Nat → Nat) (lookup : Bucket → Nat)
    (data : List Bucket) (capacity : Nat) (fuel : Nat) :
    ∀ (idx res : List (Option Nat)) (cur : Nat),
      deleteMappingGo h lookup data capacity fuel idx cur = some res →
      res.length = idx.length := by
  induction fuel with
  | zero => intro idx res cur hh; simp [deleteMappingGo] at hh
  | succ n ih =>
    intro idx res cur hh
    rw [deleteMappingGo] at hh
    cases hg : idx.get? cur with
    | none => rw [hg] at hh; simp at hh
    | some e =>
      rw [hg] at hh
      cases e with
      | none => simp at hh; rw [← hh]
      | some neighbor =>
        dsimp only at hh
        cases hd : data.get? neighbor with
        | none => rw [hd] at hh; simp at hh
        | some bucket =>
          rw [hd] at hh
          dsimp only at hh
          by_cases hi : hash_to_index h (lookup bucket) capacity = cur
          · rw [if_pos hi] at hh
            simp at hh
            rw [← hh]
          · rw [if_neg hi] at hh
            cases hp : idx.get? (if cur = 0 then capacity - 1 else cur - 1) with
            | none => rw [hp] at hh; simp at hh
            | some a =>
              rw [hp] at hh
              dsimp only at hh
              have := ih _ _ _ hh
              rw [this, List.length_set, List.length_set]

theorem deleteMappingGo_count (h : Nat → Nat) (lookup : Bucket → Nat)
    (data : List Bucket) (capacity : Nat) (fuel : Nat) :
    ∀ (idx res : List (Option Nat)) (cur : Nat) (w : Option Nat),
      deleteMappingGo h lookup data capacity fuel idx cur = some res →
      res.count w = idx.count w := by
  induction fuel with
  | zero => intro idx res cur w hh; simp [deleteMappingGo] at hh
  | succ n ih =>
    intro idx res cur w hh
    rw [deleteMappingGo] at hh
    cases hg : idx.get? cur with
    | none => rw [hg] at hh; simp at hh
    | some e =>
      rw [hg] at hh
      cases e with
      | none => simp at hh; rw [← hh]
      | some neighbor =>
        dsimp only at hh
        cases hd : data.get? neighbor with
        | none => rw [hd] at hh; simp at hh
        | some bucket =>
          rw [hd] at hh
          dsimp only at hh
          by_cases hi : hash_to_index h (lookup bucket) capacity = cur
          · rw [if_pos hi] at hh
            simp at hh
            rw [← hh]
          · rw [if_neg hi] at hh
            cases hp : idx.get? (if cur = 0 then capacity - 1 else cur - 1) with
            | none => rw [hp] at hh; simp at hh
            | some a =>
              rw [hp] at hh
              dsimp only at hh
              have h1 := ih _ _ _ w hh
              rw [h1]
              exact count_swap idx _ _ a (some neighbor) hp hg w

theorem delete_mapping_length (h : Nat → Nat) (lookup : Bucket → Nat)
    (data : List Bucket) (capacity : Nat) (idx res : List (Option Nat)) (i : Nat)
    (hh : delete_mapping h lookup data capacity idx i = some res) :
    res.length = idx.length := by
  rw [delete_mapping] at hh
  split at hh
  · simp at hh
  · split at hh
    · have := deleteMappingGo_length _ _ _ _ _ _ _ _ hh
      rw [this, List.length_set]
    · simp at hh

theorem delete_mapping_count (h : Nat → Nat) (lookup : Bucket → Nat)
    (data : List Bucket) (capacity : Nat) (idx res : List (Option Nat)) (i : Nat)
    (e : Option Nat) (hget : idx.get? i = some e)
    (hh : delete_mapping h lookup data capacity idx i = some res) (w : Option Nat) :
    res.count w + (if e = w then 1 else 0)
      = idx.count w + (if (none : Option Nat) = w then 1 else 0) := by
  rw [delete_mapping] at hh
  split at hh
  · simp at hh
  · split at hh
    · have h1 := deleteMappingGo_count _ _ _ _ _ _ _ _ w hh
      have h2 := count_set_eq idx i none e w hget
      omega
    · simp at hh

theorem delete_mapping_mem (h : Nat → Nat) (lookup : Bucket → Nat)
    (data : List Bucket) (capacity : Nat) (idx res : List (Option Nat)) (i : Nat)
    (e : Option Nat) (hget : idx.get? i = some e)
    (hh : delete_mapping h lookup data capacity idx i = some res) (v : Nat)
    (hm : (some v) ∈ res) : (some v) ∈ idx := by
  have hc := delete_mapping_count h lookup data capacity idx res i e hget hh (some v)
  have hpos := List.count_pos_iff_mem.mpr hm
  have : idx.count (some v) > 0 := by
    have hne : ¬ ((none : Option Nat) = some v) := by simp
    rw [if_neg hne] at hc
    omega
  exact List.count_pos_iff_mem.mp this

theorem delete_mapping_removes (h : Nat → Nat) (lookup : Bucket → Nat)
    (data : List Bucket) (capacity : Nat) (idx res : List (Option Nat)) (i : Nat)
    (b : Nat) (hget : idx.get? i = some (some b))
    (honce : idx.count (some b) ≤ 1)
    (hh : delete_mapping h lookup data capacity idx i = some res) :
    ¬ (some b) ∈ res := by
  intro hm
  have hc := delete_mapping_count h lookup data capacity idx res i (some b) hget hh (some b)
  have hpos := List.count_pos_iff_mem.mpr hm
  have hne : ¬ ((none : Option Nat) = some b) := by simp
  rw [if_neg hne, if_pos rfl] at hc
  omega

theorem delete_mapping_count_le (h : Nat → Nat) (lookup : Bucket → Nat)
    (data : List Bucket) (capacity : Nat) (idx res : List (Option Nat)) (i : Nat)
    (e : Option Nat) (hget : idx.get? i = some e)
    (hh : delete_mapping h lookup data capacity idx i = some res) (w : Nat) :
    res.count (some w) ≤ idx.count (some w) := by
  have hc := delete_mapping_count h lookup data capacity idx res i e hget hh (some w)
  have hne : ¬ ((none : Option Nat) = some w) := by simp
  rw [if_neg hne] at hc
  omega

/-! ### Lemmas about the probe engine -/

theorem probeGo_found (hash_index : List (Option Nat)) (h : Nat → Nat)
    (lookup : Bucket → Nat) (buckets : List Bucket) (capacity element : Nat)
    (fuel : Nat) :
    ∀ (index dist i : Nat),
      probeGo hash_index h lookup buckets capacity element fuel index dist
        = some (ProbeResult.found i) →
      ∃ bi bucket, hash_index.get? i = some (some bi) ∧
        buckets.get? bi = some bucket ∧ lookup bucket = element := by
  induction fuel with
  | zero => intro index dist i hh; simp [probeGo] at hh
  | succ n ih =>
    intro index dist i hh
    rw [probeGo] at hh
    cases hg : hash_index.get? index with
    | none => rw [hg] at hh; simp at hh
    | some e =>
      rw [hg] at hh
      cases e with
      | none => simp at hh
      | some bi =>
        dsimp only at hh
        cases hd : buckets.get? bi with
        | none => rw [hd] at hh; simp at hh
        | some bucket =>
          rw [hd] at hh
          dsimp only at hh
          by_cases he : lookup bucket = element
          · rw [if_pos he] at hh
            simp at hh
            subst hh
            exact ⟨bi, bucket, hg, hd, he⟩
          · rw [if_neg he] at hh
            by_cases hlt : probe_distance index (hash_to_index h (lookup bucket) capacity) capacity < dist
            · rw [if_pos hlt] at hh
              simp at hh
            · rw [if_neg hlt] at hh
              exact ih _ _ _ hh

theorem probeGo_isSome (hash_index : List (Option Nat)) (h : Nat → Nat)
    (lookup : Bucket → Nat) (buckets : List Bucket) (capacity element : Nat)
    (hlen : hash_index.length = capacity)
    (hval : ∀ bi, (some bi) ∈ hash_index → ∃ bucket, buckets.get? bi = some bucket) :
    ∀ (fuel index dist : Nat), index < capacity → capacity ≤ fuel + dist →
      (probeGo hash_index h lookup buckets capacity element (fuel + 1) index dist).isSome := by
  intro fuel
  induction fuel with
  | zero =>
    intro index dist hidx hcap
    rw [probeGo]
    obtain ⟨e, hg⟩ := get?_exists_of_lt hash_index index (hlen ▸ hidx)
    rw [hg]
    cases e with
    | none => simp
    | some bi =>
      obtain ⟨bucket, hd⟩ := hval bi (List.get?_mem hg)
      dsimp only
      rw [hd]
      dsimp only
      by_cases he : lookup bucket = element
      · rw [if_pos he]; simp
      · rw [if_neg he]
        have hcappos : 0 < capacity := Nat.lt_of_le_of_lt (Nat.zero_le _) hidx
        have hlt : probe_distance index (hash_to_index h (lookup bucket) capacity) capacity < dist := by
          have : probe_distance index (hash_to_index h (lookup bucket) capacity) capacity < capacity :=
            Nat.mod_lt _ hcappos
          omega
        rw [if_pos hlt]
        simp
  | succ n ih =>
    intro index dist hidx hcap
    rw [probeGo]
    obtain ⟨e, hg⟩ := get?_exists_of_lt hash_index index (hlen ▸ hidx)
    rw [hg]
    cases e with
    | none => simp
    | some bi =>
      obtain ⟨bucket, hd⟩ := hval bi (List.get?_mem hg)
      dsimp only
      rw [hd]
      dsimp only
      by_cases he : lookup bucket = element
      · rw [if_pos he]; simp
      · rw [if_neg he]
        by_cases hlt : probe_distance index (hash_to_index h (lookup bucket) capacity) capacity < dist
        · rw [if_pos hlt]; simp
        · rw [if_neg hlt]
          have hcappos : 0 < capacity := Nat.lt_of_le_of_lt (Nat.zero_le _) hidx
          exact ih ((index + 1) % capacity) (dist + 1) (Nat.mod_lt _ hcappos) (by omega)

theorem probe_index_isSome (element : Nat) (hash_index : List (Option Nat))
    (h : Nat → Nat) (lookup : Bucket → Nat) (buckets : List Bucket) (capacity : Nat)
    (hcap : 0 < capacity) (hlen : hash_index.length = capacity)
    (hval : ∀ bi, (some bi) ∈ hash_index → ∃ bucket, buckets.get? bi = some bucket) :
    (probe_index element hash_index h lookup buckets capacity).isSome := by
  rw [probe_index, if_neg (Nat.pos_iff_ne_zero.mp hcap)]
  exact probeGo_isSome hash_index h lookup buckets capacity element hlen hval capacity
    (hash_to_index h element capacity) 0 (Nat.mod_lt _ hcap) (by omega)

theorem probe_index_found (element : Nat) (hash_index : List (Option Nat))
    (h : Nat → Nat) (lookup : Bucket → Nat) (buckets : List Bucket) (capacity i : Nat)
    (hh : probe_index element hash_index h lookup buckets capacity
      = some (ProbeResult.found i)) :
    ∃ bi bucket, hash_index.get? i = some (some bi) ∧
      buckets.get? bi = some bucket ∧ lookup bucket = element := by
  rw [probe_index] at hh
  split at hh
  · simp at hh
  · exact probeGo_found _ _ _ _ _ _ _ _ _ _ hh

theorem probeGo_congr_proj (hash_index : List (Option Nat)) (h : Nat → Nat)
    (lookup : Bucket → Nat) (buckets buckets' : List Bucket) (capacity element : Nat)
    (hproj : ∀ bi, (buckets.get? bi).map lookup = (buckets'.get? bi).map lookup) :
    ∀ (fuel index dist : Nat),
      probeGo hash_index h lookup buckets capacity element fuel index dist
        = probeGo hash_index h lookup buckets' capacity element fuel index dist := by
  intro fuel
  induction fuel with
  | zero => intro index dist; rfl
  | succ n ih =>
    intro index dist
    rw [probeGo, probeGo]
    cases hg : hash_index.get? index with
    | none => rfl
    | some e =>
      cases e with
      | none => rfl
      | some bi =>
        dsimp only
        have hp := hproj bi
        cases hd : buckets.get? bi with
        | none =>
          rw [hd] at hp
          cases hd' : buckets'.get? bi with
          | none => rfl
          | some b' => rw [hd'] at hp; simp at hp
        | some bucket =>
          rw [hd] at hp
          cases hd' : buckets'.get? bi with
          | none => rw [hd'] at hp; simp at hp
          | some bucket' =>
            rw [hd'] at hp
            simp only [Option.map_some'] at hp
            have hpe : lookup bucket = lookup bucket' := Option.some.inj hp
            dsimp only
            rw [hpe, ih]

theorem probe_index_congr_proj (element : Nat) (hash_index : List (Option Nat))
    (h : Nat → Nat) (lookup : Bucket → Nat) (buckets buckets' : List Bucket)
    (capacity : Nat)
    (hproj : ∀ bi, (buckets.get? bi).map lookup = (buckets'.get? bi).map lookup) :
    probe_index element hash_index h lookup buckets capacity
      = probe_index element hash_index h lookup buckets' capacity := by
  rw [probe_index, probe_index]
  split
  · rfl
  · exact probeGo_congr_proj _ _ _ _ _ _ _ hproj _ _ _

/-! ### Lemmas about lookups on states without a matching bucket -/

theorem get_right_absent (m : BiMap) (x : Nat)
    (hcap : 0 < m.current_capacity)
    (hval : ∀ v, (some v) ∈ m.left_index → v < m.len)
    (habs : ∀ b ∈ m.data, b.left ≠ x) :
    m.get_right x = some none := by
  have hval2 : ∀ bi, (some bi) ∈ m.left_index → ∃ bucket, m.data.get? bi = some bucket := by
    intro bi hm
    exact get?_exists_of_lt _ _ (hval bi hm)
  have hsome := probe_index_isSome x m.left_index m.hasher Bucket.left m.data
    m.current_capacity hcap rfl hval2
  rw [BiMap.get_right]
  cases hres : m.lookup_index_left x with
  | none =>
    rw [BiMap.lookup_index_left] at hres
    rw [hres] at hsome
    simp at hsome
  | some r =>
    cases r with
    | insertAt i => rfl
    | found i =>
      exfalso
      rw [BiMap.lookup_index_left] at hres
      obtain ⟨bi, bucket, hgi, hdb, hlb⟩ := probe_index_found _ _ _ _ _ _ _ hres
      exact habs bucket (List.get?_mem hdb) hlb

theorem get_left_absent (m : BiMap) (x : Nat)
    (hcap : 0 < m.current_capacity)
    (hlen : m.right_index.length = m.current_capacity)
    (hval : ∀ v, (some v) ∈ m.right_index → v < m.len)
    (habs : ∀ b ∈ m.data, b.right ≠ x) :
    m.get_left x = some none := by
  have hval2 : ∀ bi, (some bi) ∈ m.right_index → ∃ bucket, m.data.get? bi = some bucket := by
    intro bi hm
    exact get?_exists_of_lt _ _ (hval bi hm)
  have hsome := probe_index_isSome x m.right_index m.reverse_hasher Bucket.right m.data
    m.current_capacity hcap hlen hval2
  rw [BiMap.get_left]
  cases hres : m.lookup_index_right x with
  | none =>
    rw [BiMap.lookup_index_right] at hres
    rw [hres] at hsome
    simp at hsome
  | some r =>
    cases r with
    | insertAt i => rfl
    | found i =>
      exfalso
      rw [BiMap.lookup_index_right] at hres
      obtain ⟨bi, bucket, hgi, hdb, hlb⟩ := probe_index_found _ _ _ _ _ _ _ hres
      exact habs bucket (List.get?_mem hdb) hlb

/-! ### State-level lemmas about the delete/insert mapping wrappers -/

theorem delete_mapping_left_spec (m m' : BiMap) (i : Nat)
    (h : m.delete_mapping_left i = some m') :
    m'.data = m.data ∧ m'.right_index = m.right_index ∧ m'.hasher = m.hasher ∧
    m'.reverse_hasher = m.reverse_hasher ∧
    delete_mapping m.hasher Bucket.left m.data m.current_capacity m.left_index i
      = some m'.left_index := by
  rw [BiMap.delete_mapping_left] at h
  cases hd : delete_mapping m.hasher Bucket.left m.data m.current_capacity m.left_index i with
  | none => rw [hd] at h; simp at h
  | some li =>
    rw [hd] at h
    simp only [bind, Option.bind_some] at h
    cases h
    refine ⟨rfl, rfl, rfl, rfl, ?_⟩
    simpa using hd

theorem delete_mapping_right_spec (m m' : BiMap) (i : Nat)
    (h : m.delete_mapping_right i = some m') :
    m'.data = m.data ∧ m'.left_index = m.left_index ∧ m'.hasher = m.hasher ∧
    m'.reverse_hasher = m.reverse_hasher ∧
    delete_mapping m.reverse_hasher Bucket.right m.data m.current_capacity m.right_index i
      = some m'.right_index := by
  rw [BiMap.delete_mapping_right] at h
  cases hd : delete_mapping m.reverse_hasher Bucket.right m.data m.current_capacity
      m.right_index i with
  | none => rw [hd] at h; simp at h
  | some ri =>
    rw [hd] at h
    simp only [bind, Option.bind_some] at h
    cases h
    refine ⟨rfl, rfl, rfl, rfl, ?_⟩
    simpa using hd

theorem resolve_left_meta_some (m : BiMap) (bi : Nat) (lmi : Option Nat) (i : Nat)
    (h : m.resolve_left_meta bi lmi = some i) :
    lmi = some i ∨
    (lmi = none ∧ ∃ b, m.data.get? bi = some b ∧
      m.lookup_index_left b.left = some (ProbeResult.found i)) := by
  cases lmi with
  | some j =>
    left
    rw [BiMap.resolve_left_meta] at h
    cases h
    rfl
  | none =>
    right
    refine ⟨rfl, ?_⟩
    rw [BiMap.resolve_left_meta] at h
    simp only [bind, Option.bind_eq_some] at h
    obtain ⟨b, hb, h⟩ := h
    obtain ⟨r, hr, h⟩ := h
    cases r with
    | found j =>
      simp at h
      subst h
      exact ⟨b, hb, hr⟩
    | insertAt j => simp at h

theorem resolve_right_meta_some (m : BiMap) (bi : Nat) (rmi : Option Nat) (i : Nat)
    (h : m.resolve_right_meta bi rmi = some i) :
    rmi = some i ∨
    (rmi = none ∧ ∃ b, m.data.get? bi = some b ∧
      m.lookup_index_right b.right = some (ProbeResult.found i)) := by
  cases rmi with
  | some j =>
    left
    rw [BiMap.resolve_right_meta] at h
    cases h
    rfl
  | none =>
    right
    refine ⟨rfl, ?_⟩
    rw [BiMap.resolve_right_meta] at h
    simp only [bind, Option.bind_eq_some] at h
    obtain ⟨b, hb, h⟩ := h
    obtain ⟨r, hr, h⟩ := h
    cases r with
    | found j =>
      simp at h
      subst h
      exact ⟨b, hb, hr⟩
    | insertAt j => simp at h

theorem get?_take_lt {α : Type} (l : List α) (n i : Nat) (h : i < n) :
    (l.take n).get? i = l.get? i := by
  rw [List.get?_take_eq_if, if_pos h]

theorem swap_remove_tail_spec (m2 m' : BiMap) (bi : Nat) (bk : Bucket)
    (hbi : bi < m2.len)
    (h : m2.swap_remove_tail bi = some (m', bk)) :
    m2.data.get? bi = some bk ∧
    m'.len = m2.len - 1 ∧
    m'.hasher = m2.hasher ∧ m'.reverse_hasher = m2.reverse_hasher ∧
    m'.left_index.length = m2.left_index.length ∧
    m'.right_index.length = m2.right_index.length ∧
    (∀ k, k < m2.len - 1 →
      m'.data.get? k = if k = bi then m2.data.get? (m2.len - 1) else m2.data.get? k) ∧
    (bi = m2.len - 1 → m'.left_index = m2.left_index ∧ m'.right_index = m2.right_index) ∧
    (bi ≠ m2.len - 1 → ∃ li ri btm,
      m2.data.get? (m2.len - 1) = some btm ∧
      m2.lookup_index_left btm.left = some (ProbeResult.found li) ∧
      m2.lookup_index_right btm.right = some (ProbeResult.found ri) ∧
      m'.left_index = m2.left_index.set li (some bi) ∧
      m'.right_index = m2.right_index.set ri (some bi)) := by
  rw [BiMap.swap_remove_tail] at h
  split at h
  case isTrue heq =>
    simp only [bind, Option.bind_eq_some] at h
    obtain ⟨bucket, hbucket, h⟩ := h
    simp only [Option.some_inj, Prod.mk.injEq] at h
    obtain ⟨hm', hbk⟩ := h
    subst hbk
    subst hm'
    refine ⟨hbucket, ?_, rfl, rfl, rfl, rfl, ?_, fun _ => ⟨rfl, rfl⟩, fun hne => absurd heq hne⟩
    · show (m2.data.take (m2.len - 1)).length = m2.len - 1
      rw [List.length_take]
      have : m2.len = m2.data.length := rfl
      omega
    · intro k hk
      show (m2.data.take (m2.len - 1)).get? k = _
      rw [get?_take_lt _ _ _ hk, if_neg (by omega)]
  case isFalse hne =>
    simp only [bind, Option.bind_eq_some] at h
    obtain ⟨btm, hbtm, h⟩ := h
    obtain ⟨lres, hlres, h⟩ := h
    obtain ⟨rres, hrres, h⟩ := h
    cases lres with
    | insertAt li => simp at h
    | found li =>
      cases rres with
      | insertAt ri => simp at h
      | found ri =>
        simp only [Option.bind_eq_some] at h
        obtain ⟨deleted, hdeleted, h⟩ := h
        simp only [Option.some_inj, Prod.mk.injEq] at h
        obtain ⟨hm', hbk⟩ := h
        subst hbk
        subst hm'
        refine ⟨hdeleted, ?_, rfl, rfl, ?_, ?_, ?_, fun he => absurd he hne, ?_⟩
        · show ((m2.data.set bi btm).take (m2.len - 1)).length = m2.len - 1
          rw [List.length_take, List.length_set]
          have : m2.len = m2.data.length := rfl
          omega
        · show (m2.left_index.set li (some bi)).length = m2.left_index.length
          rw [List.length_set]
        · show (m2.right_index.set ri (some bi)).length = m2.right_index.length
          rw [List.length_set]
        · intro k hk
          show ((m2.data.set bi btm).take (m2.len - 1)).get? k = _
          rw [get?_take_lt _ _ _ hk]
          by_cases hkb : k = bi
          · subst hkb
            rw [if_pos rfl, List.get?_set_eq_of_lt btm (show k < m2.data.length from hbi), hbtm]
          · rw [if_neg hkb, List.get?_set_ne _ _ (fun he => hkb he.symm)]
        · intro _
          exact ⟨li, ri, btm, hbtm, hlres, hrres, rfl, rfl⟩

theorem delete_bucket_spec (m m' : BiMap) (bi : Nat) (lmi rmi : Option Nat) (bk : Bucket)
    (h : m.delete_bucket bi lmi rmi = some (m', bk)) :
    bi < m.len ∧
    ∃ m1 m2 li ri,
      m.resolve_left_meta bi lmi = some li ∧
      m.delete_mapping_left li = some m1 ∧
      m1.resolve_right_meta bi rmi = some ri ∧
      m1.delete_mapping_right ri = some m2 ∧
      m2.swap_remove_tail bi = some (m', bk) := by
  rw [BiMap.delete_bucket] at h
  split at h
  case isFalse => simp at h
  case isTrue hlt =>
    refine ⟨hlt, ?_⟩
    simp only [bind, Option.bind_eq_some] at h
    obtain ⟨li, hli, h⟩ := h
    obtain ⟨m1, hm1, h⟩ := h
    obtain ⟨ri, hri, h⟩ := h
    obtain ⟨m2, hm2, h⟩ := h
    exact ⟨m1, m2, li, ri, hli, hm1, hri, hm2, h⟩

theorem pairwise_get?_ne {α : Type} (l : List α) (p : α → α → Prop)
    (hp : l.Pairwise p) (i j : Nat) (hij : i < j) (x y : α)
    (hx : l.get? i = some x) (hy : l.get? j = some y) : p x y := by
  rw [List.get?_eq_some] at hx hy
  obtain ⟨hi, rfl⟩ := hx
  obtain ⟨hj, rfl⟩ := hy
  exact List.pairwise_iff_get.mp hp ⟨i, hi⟩ ⟨j, hj⟩ hij

theorem nodup_left_inj (data : List Bucket)
    (hnodup : data.Pairwise (fun a b => a.left ≠ b.left)) (i j : Nat) (x y : Bucket)
    (hx : data.get? i = some x) (hy : data.get? j = some y)
    (hxy : x.left = y.left) : i = j := by
  rcases Nat.lt_trichotomy i j with hlt | heq | hgt
  · exact absurd hxy (pairwise_get?_ne data _ hnodup i j hlt x y hx hy)
  · exact heq
  · exact absurd hxy.symm (pairwise_get?_ne data _ hnodup j i hgt y x hy hx)

theorem nodup_right_inj (data : List Bucket)
    (hnodup : data.Pairwise (fun a b => a.right ≠ b.right)) (i j : Nat) (x y : Bucket)
    (hx : data.get? i = some x) (hy : data.get? j = some y)
    (hxy : x.right = y.right) : i = j := by
  rcases Nat.lt_trichotomy i j with hlt | heq | hgt
  · exact absurd hxy (pairwise_get?_ne data _ hnodup i j hlt x y hx hy)
  · exact heq
  · exact absurd hxy.symm (pairwise_get?_ne data _ hnodup j i hgt y x hy hx)

/-- Elements of the store after a swap-remove all come from positions other
than the deleted one. -/
theorem data_mem_of_delete (dataOld dataNew : List Bucket) (bi n : Nat)
    (hlen : dataOld.length = n)
    (hlennew : dataNew.length = n - 1)
    (hk : ∀ k, k < n - 1 →
      dataNew.get? k = if k = bi then dataOld.get? (n - 1) else dataOld.get? k) :
    ∀ x ∈ dataNew, ∃ j, j < n ∧ j ≠ bi ∧ dataOld.get? j = some x := by
  intro x hx
  obtain ⟨k, hkx⟩ := List.get?_of_mem hx
  have hklt : k < n - 1 := hlennew ▸ lt_of_get?_eq_some _ _ _ hkx
  rw [hk k hklt] at hkx
  by_cases hkb : k = bi
  · rw [if_pos hkb] at hkx
    refine ⟨n - 1, by omega, by omega, hkx⟩
  · rw [if_neg hkb] at hkx
    exact ⟨k, by omega, hkb, hkx⟩

/-- After a successful `delete_bucket`, all left-index entries are valid bucket
numbers of the shrunken store, provided the pre-state was well-formed. -/
theorem delete_bucket_left_entries (m m' : BiMap) (bi : Nat) (lmi rmi : Option Nat)
    (bk : Bucket)
    (h : m.delete_bucket bi lmi rmi = some (m', bk))
    (hres : ∀ i, lmi = some i → m.left_index.get? i = some (some bi))
    (honce : ∀ v, m.left_index.count (some v) ≤ 1)
    (hval : ∀ v, (some v) ∈ m.left_index → v < m.len)
    (hnodup : m.data.Pairwise (fun a b => a.left ≠ b.left)) :
    ∀ v, (some v) ∈ m'.left_index → v < m'.len := by
  obtain ⟨hbi, m1, m2, li, ri, hli, hm1, hri, hm2, htail⟩ := delete_bucket_spec _ _ _ _ _ _ h
  obtain ⟨hd1, hr1, hh1, hrh1, hdm1⟩ := delete_mapping_left_spec _ _ _ hm1
  obtain ⟨hd2, hl2, hh2, hrh2, hdm2⟩ := delete_mapping_right_spec _ _ _ hm2
  -- the slot deleted from the left index held the bucket number `bi`
  have hbi2 : bi < m2.len := by
    show bi < m2.data.length
    rw [hd2, hd1]
    exact hbi
  have hbk : m.data.get? bi = some bk := by
    obtain ⟨hsw1, _⟩ := swap_remove_tail_spec m2 m' bi bk hbi2 htail
    rw [hd2, hd1] at hsw1
    exact hsw1
  have hslot : m.left_index.get? li = some (some bi) := by
    rcases resolve_left_meta_some _ _ _ _ hli with hcase | ⟨_, b, hb, hlook⟩
    · exact hres li hcase
    · have hbbk : some b = some bk := hb.symm.trans hbk
      cases hbbk
      rw [BiMap.lookup_index_left] at hlook
      obtain ⟨bi2, bucket, hgi, hdb, hlb⟩ := probe_index_found _ _ _ _ _ _ _ hlook
      have : bi2 = bi := nodup_left_inj m.data hnodup bi2 bi bucket bk hdb hbk hlb
      rw [← this]
      exact hgi
  -- entries of m1's (= m2's) left index: still valid, and `bi` is gone
  have hmem1 : ∀ v, (some v) ∈ m1.left_index → (some v) ∈ m.left_index := by
    intro v hv
    exact delete_mapping_mem _ _ _ _ _ _ _ _ hslot hdm1 v hv
  have hbi_gone : ¬ (some bi) ∈ m1.left_index :=
    delete_mapping_removes _ _ _ _ _ _ _ bi hslot (honce bi) hdm1
  have honce1 : ∀ v, m1.left_index.count (some v) ≤ 1 := by
    intro v
    have := delete_mapping_count_le _ _ _ _ _ _ _ _ hslot hdm1 v
    exact le_trans this (honce v)
  have hlen12 : m2.left_index = m1.left_index := hl2
  -- now the tail
  by_cases hcase : bi = m2.len - 1
  · obtain ⟨_, hlen', _, _, _, _, _, hsame, _⟩ := swap_remove_tail_spec m2 m' bi bk hbi2 htail
    obtain ⟨hlidx, _⟩ := hsame hcase
    intro v hv
    rw [hlidx, hlen12] at hv
    have hvm := hmem1 v hv
    have hvlt := hval v hvm
    have hvne : v ≠ bi := fun he => hbi_gone (he ▸ hv)
    have hm2len : m2.len = m.len := by show m2.data.length = m.data.length; rw [hd2, hd1]
    rw [hlen']
    rw [hm2len] at hcase
    omega
  · obtain ⟨_, hlen', _, _, _, _, _, _, hrepoint⟩ := swap_remove_tail_spec m2 m' bi bk hbi2 htail
    obtain ⟨li2, ri2, btm, hbtm, hlook2, _, hlidx, _⟩ := hrepoint hcase
    have hm2len : m2.len = m.len := by show m2.data.length = m.data.length; rw [hd2, hd1]
    -- the repointed slot held the moved (last) bucket's number, m.len - 1
    have hslot2 : m2.left_index.get? li2 = some (some (m.len - 1)) := by
      rw [BiMap.lookup_index_left] at hlook2
      obtain ⟨b2, bucket2, hgi2, hdb2, hlb2⟩ := probe_index_found _ _ _ _ _ _ _ hlook2
      have hdata2 : m2.data = m.data := by rw [hd2, hd1]
      rw [hdata2] at hdb2
      rw [hdata2, hm2len] at hbtm
      have : b2 = m.len - 1 := nodup_left_inj m.data hnodup b2 (m.len - 1) bucket2 btm
        hdb2 hbtm hlb2
      rw [← this]
      exact hgi2
    have hcnt : m2.left_index.count (some (m.len - 1)) = 1 := by
      have hle : m2.left_index.count (some (m.len - 1)) ≤ 1 := by
        rw [hlen12]; exact honce1 (m.len - 1)
      have hge : 0 < m2.left_index.count (some (m.len - 1)) :=
        List.count_pos_iff_mem.mpr (List.get?_mem hslot2)
      omega
    have hfinal : m'.left_index.count (some (m.len - 1)) = 0 := by
      rw [hlidx]
      have := count_set_eq m2.left_index li2 (some bi) (some (m.len - 1))
        (some (m.len - 1)) hslot2
      rw [if_pos rfl] at this
      have hbine : ¬ ((some bi : Option Nat) = some (m.len - 1)) := by
        simp only [Option.some_inj]
        rw [hm2len] at hcase
        exact hcase
      rw [if_neg hbine] at this
      omega
    intro v hv
    have hvne_last : v ≠ m.len - 1 := by
      intro he
      subst he
      have := List.count_pos_iff_mem.mpr hv
      omega
    rw [hlidx] at hv
    rcases List.mem_or_eq_of_mem_set hv with hv2 | hv2
    · rw [hlen12] at hv2
      have hvm := hmem1 v hv2
      have hvlt := hval v hvm
      have hvne : v ≠ bi := fun he => hbi_gone (he ▸ hv2)
      rw [hlen']
      rw [hm2len] at hcase
      omega
    · have : v = bi := by simpa using hv2
      subst this
      rw [hlen']
      rw [hm2len] at hcase
      omega

/-- Mirror of `delete_bucket_left_entries` for the right index. -/
theorem delete_bucket_right_entries (m m' : BiMap) (bi : Nat) (lmi rmi : Option Nat)
    (bk : Bucket)
    (h : m.delete_bucket bi lmi rmi = some (m', bk))
    (hres : ∀ i, rmi = some i → m.right_index.get? i = some (some bi))
    (honce : ∀ v, m.right_index.count (some v) ≤ 1)
    (hval : ∀ v, (some v) ∈ m.right_index → v < m.len)
    (hnodup : m.data.Pairwise (fun a b => a.right ≠ b.right)) :
    ∀ v, (some v) ∈ m'.right_index → v < m'.len := by
  obtain ⟨hbi, m1, m2, li, ri, hli, hm1, hri, hm2, htail⟩ := delete_bucket_spec _ _ _ _ _ _ h
  obtain ⟨hd1, hr1, hh1, hrh1, hdm1⟩ := delete_mapping_left_spec _ _ _ hm1
  obtain ⟨hd2, hl2, hh2, hrh2, hdm2⟩ := delete_mapping_right_spec _ _ _ hm2
  have hbi2 : bi < m2.len := by
    show bi < m2.data.length
    rw [hd2, hd1]
    exact hbi
  have hbk : m.data.get? bi = some bk := by
    obtain ⟨hsw1, _⟩ := swap_remove_tail_spec m2 m' bi bk hbi2 htail
    rw [hd2, hd1] at hsw1
    exact hsw1
  have hslot : m.right_index.get? ri = some (some bi) := by
    rcases resolve_right_meta_some _ _ _ _ hri with hcase | ⟨_, b, hb, hlook⟩
    · exact hres ri hcase
    · rw [hd1] at hb
      have hbbk : some b = some bk := hb.symm.trans hbk
      cases hbbk
      rw [BiMap.lookup_index_right] at hlook
      obtain ⟨bi2, bucket, hgi, hdb, hlb⟩ := probe_index_found _ _ _ _ _ _ _ hlook
      rw [hd1] at hdb
      rw [hr1] at hgi
      have : bi2 = bi := nodup_right_inj m.data hnodup bi2 bi bucket bk hdb hbk hlb
      rw [← this]
      exact hgi
  have hdm2m : delete_mapping m1.reverse_hasher Bucket.right m1.data m1.current_capacity
      m.right_index ri = some m2.right_index := by
    rw [← hr1]
    exact hdm2
  have hmem1 : ∀ v, (some v) ∈ m2.right_index → (some v) ∈ m.right_index := by
    intro v hv
    exact delete_mapping_mem _ _ _ _ _ _ _ _ hslot hdm2m v hv
  have hbi_gone : ¬ (some bi) ∈ m2.right_index :=
    delete_mapping_removes _ _ _ _ _ _ _ bi hslot (honce bi) hdm2m
  have honce1 : ∀ v, m2.right_index.count (some v) ≤ 1 := by
    intro v
    have := delete_mapping_count_le _ _ _ _ _ _ _ _ hslot hdm2m v
    exact le_trans this (honce v)
  by_cases hcase : bi = m2.len - 1
  · obtain ⟨_, hlen', _, _, _, _, _, hsame, _⟩ := swap_remove_tail_spec m2 m' bi bk hbi2 htail
    obtain ⟨_, hridx⟩ := hsame hcase
    intro v hv
    rw [hridx] at hv
    have hvm := hmem1 v hv
    have hvlt := hval v hvm
    have hvne : v ≠ bi := fun he => hbi_gone (he ▸ hv)
    have hm2len : m2.len = m.len := by show m2.data.length = m.data.length; rw [hd2, hd1]
    rw [hlen']
    rw [hm2len] at hcase
    omega
  · obtain ⟨_, hlen', _, _, _, _, _, _, hrepoint⟩ := swap_remove_tail_spec m2 m' bi bk hbi2 htail
    obtain ⟨li2, ri2, btm, hbtm, _, hlook2, _, hridx⟩ := hrepoint hcase
    have hm2len : m2.len = m.len := by show m2.data.length = m.data.length; rw [hd2, hd1]
    have hslot2 : m2.right_index.get? ri2 = some (some (m.len - 1)) := by
      rw [BiMap.lookup_index_right] at hlook2
      obtain ⟨b2, bucket2, hgi2, hdb2, hlb2⟩ := probe_index_found _ _ _ _ _ _ _ hlook2
      have hdata2 : m2.data = m.data := by rw [hd2, hd1]
      rw [hdata2] at hdb2
      rw [hdata2, hm2len] at hbtm
      have : b2 = m.len - 1 := nodup_right_inj m.data hnodup b2 (m.len - 1) bucket2 btm
        hdb2 hbtm hlb2
      rw [← this]
      exact hgi2
    have hcnt : m2.right_index.count (some (m.len - 1)) = 1 := by
      have hle : m2.right_index.count (some (m.len - 1)) ≤ 1 := honce1 (m.len - 1)
      have hge : 0 < m2.right_index.count (some (m.len - 1)) :=
        List.count_pos_iff_mem.mpr (List.get?_mem hslot2)
      omega
    have hfinal : m'.right_index.count (some (m.len - 1)) = 0 := by
      rw [hridx]
      have := count_set_eq m2.right_index ri2 (some bi) (some (m.len - 1))
        (some (m.len - 1)) hslot2
      rw [if_pos rfl] at this
      have hbine : ¬ ((some bi : Option Nat) = some (m.len - 1)) := by
        simp only [Option.some_inj]
        rw [hm2len] at hcase
        exact hcase
      rw [if_neg hbine] at this
      omega
    intro v hv
    have hvne_last : v ≠ m.len - 1 := by
      intro he
      subst he
      have := List.count_pos_iff_mem.mpr hv
      omega
    rw [hridx] at hv
    rcases List.mem_or_eq_of_mem_set hv with hv2 | hv2
    · have hvm := hmem1 v hv2
      have hvlt := hval v hvm
      have hvne : v ≠ bi := fun he => hbi_gone (he ▸ hv2)
      rw [hlen']
      rw [hm2len] at hcase
      omega
    · have : v = bi := by simpa using hv2
      subst this
      rw [hlen']
      rw [hm2len] at hcase
      omega

/-- Basic consequences of a successful `delete_bucket`, needing no
well-formedness assumptions. -/
theorem delete_bucket_basic (m m' : BiMap) (bi : Nat) (lmi rmi : Option Nat) (bk : Bucket)
    (h : m.delete_bucket bi lmi rmi = some (m', bk)) :
    bi < m.len ∧
    m.data.get? bi = some bk ∧
    m'.len = m.len - 1 ∧
    m'.hasher = m.hasher ∧ m'.reverse_hasher = m.reverse_hasher ∧
    m'.left_index.length = m.left_index.length ∧
    m'.right_index.length = m.right_index.length ∧
    (∀ k, k < m.len - 1 →
      m'.data.get? k = if k = bi then m.data.get? (m.len - 1) else m.data.get? k) := by
  obtain ⟨hbi, m1, m2, li, ri, hli, hm1, hri, hm2, htail⟩ := delete_bucket_spec _ _ _ _ _ _ h
  obtain ⟨hd1, hr1, hh1, hrh1, hdm1⟩ := delete_mapping_left_spec _ _ _ hm1
  obtain ⟨hd2, hl2, hh2, hrh2, hdm2⟩ := delete_mapping_right_spec _ _ _ hm2
  have hbi2 : bi < m2.len := by
    show bi < m2.data.length
    rw [hd2, hd1]
    exact hbi
  have hm2len : m2.len = m.len := by show m2.data.length = m.data.length; rw [hd2, hd1]
  have hdata2 : m2.data = m.data := by rw [hd2, hd1]
  obtain ⟨hsw1, hswlen, hswh, hswrh, hswll, hswrl, hswk, _, _⟩ :=
    swap_remove_tail_spec m2 m' bi bk hbi2 htail
  have hlen1 : m1.left_index.length = m.left_index.length :=
    delete_mapping_length _ _ _ _ _ _ _ hdm1
  have hlen2 : m2.right_index.length = m1.right_index.length :=
    delete_mapping_length _ _ _ _ _ _ _ hdm2
  refine ⟨hbi, by rw [← hdata2]; exact hsw1, by rw [hswlen, hm2len], by rw [hswh, hh2, hh1],
    by rw [hswrh, hrh2, hrh1], ?_, ?_, ?_⟩
  · rw [hswll, hl2, hlen1]
  · rw [hswrl, hlen2, hr1]
  · intro k hk
    rw [← hm2len] at hk
    have := hswk k hk
    rw [hdata2, hm2len] at this
    exact this

/-- The well-formedness invariants of a map state used as hypotheses below
(spec §3: index coverage, density, and the bijection property of the store):
positive capacity, equal index lengths, valid and non-duplicated index
entries, and buckets with pairwise distinct left and right values. -/
def WF (m : BiMap) : Prop :=
  0 < m.current_capacity ∧
  m.right_index.length = m.current_capacity ∧
  (∀ v, (some v) ∈ m.left_index → v < m.len) ∧
  (∀ v, (some v) ∈ m.right_index → v < m.len) ∧
  (∀ v, m.left_index.count (some v) ≤ 1) ∧
  (∀ v, m.right_index.count (some v) ≤ 1) ∧
  m.data.Pairwise (fun a b => a.left ≠ b.left) ∧
  m.data.Pairwise (fun a b => a.right ≠ b.right)

theorem remove_left_inversion (m m' : BiMap) (x : Nat) (res : Option Nat) (iL b : Nat)
    (hlook : m.lookup_index_left x = some (ProbeResult.found iL))
    (hslot : m.left_index.get? iL = some (some b))
    (h : m.remove_left x = some (m', res)) :
    ∃ bk, m.delete_bucket b (some iL) none = some (m', bk) ∧ res = some bk.right := by
  rw [BiMap.remove_left] at h
  simp only [bind, Option.bind_eq_some] at h
  obtain ⟨r, hr, h⟩ := h
  rw [hlook] at hr
  cases hr
  have hsb : slotBucket m.left_index iL = some b := by
    rw [slotBucket, hslot]
  simp only [hsb, Option.bind_eq_some, Option.some_inj] at h
  obtain ⟨b2, hb2, h⟩ := h
  cases hb2
  obtain ⟨r2, hr2, h⟩ := h
  cases h
  exact ⟨r2.2, by rw [← hr2], rfl⟩

theorem remove_right_inversion (m m' : BiMap) (x : Nat) (res : Option Nat) (iR b : Nat)
    (hlook : m.lookup_index_right x = some (ProbeResult.found iR))
    (hslot : m.right_index.get? iR = some (some b))
    (h : m.remove_right x = some (m', res)) :
    ∃ bk, m.delete_bucket b none (some iR) = some (m', bk) ∧ res = some bk.left := by
  rw [BiMap.remove_right] at h
  simp only [bind, Option.bind_eq_some] at h
  obtain ⟨r, hr, h⟩ := h
  rw [hlook] at hr
  cases hr
  have hsb : slotBucket m.right_index iR = some b := by
    rw [slotBucket, hslot]
  simp only [hsb, Option.bind_eq_some, Option.some_inj] at h
  obtain ⟨b2, hb2, h⟩ := h
  cases hb2
  obtain ⟨r2, hr2, h⟩ := h
  cases h
  exact ⟨r2.2, by rw [← hr2], rfl⟩

theorem remove_left_present (m m' : BiMap) (hwf : WF m) (x : Nat) (res : Option Nat)
    (iL b : Nat) (bk : Bucket)
    (hlook : m.lookup_index_left x = some (ProbeResult.found iL))
    (hslot : m.left_index.get? iL = some (some b))
    (hbk : m.data.get? b = some bk)
    (hrem : m.remove_left x = some (m', res)) :
    res = some bk.right ∧ m'.len = m.len - 1 ∧
    m'.get_right x = some none ∧ m'.get_left bk.right = some none := by
  obtain ⟨hcap, hrlen, hvalL, hvalR, honceL, honceR, hnodupL, hnodupR⟩ := hwf
  obtain ⟨bk2, hdel, hres⟩ := remove_left_inversion m m' x res iL b hlook hslot hrem
  obtain ⟨hbi, hbk2, hlen', _, _, hll, hrl, hkform⟩ := delete_bucket_basic _ _ _ _ _ _ hdel
  have hbkeq : bk = bk2 := Option.some_inj.mp (hbk.symm.trans hbk2)
  subst hbkeq
  have hxleft : bk.left = x := by
    have hlook2 := hlook
    rw [BiMap.lookup_index_left] at hlook2
    obtain ⟨b', bucket, hgi, hdb, hlb⟩ := probe_index_found _ _ _ _ _ _ _ hlook2
    rw [hslot] at hgi
    cases hgi
    rw [hbk] at hdb
    cases hdb
    exact hlb
  have hmemdata : ∀ y ∈ m'.data, ∃ j, j < m.len ∧ j ≠ b ∧ m.data.get? j = some y :=
    data_mem_of_delete m.data m'.data b m.len rfl hlen' hkform
  have hcap' : m.current_capacity = m'.current_capacity := by
    show m.left_index.length = m'.left_index.length
    rw [hll]
  refine ⟨hres, hlen', ?_, ?_⟩
  · apply get_right_absent
    · rw [← hcap']
      exact hcap
    · exact delete_bucket_left_entries m m' b (some iL) none bk hdel
        (fun i hi => by cases hi; exact hslot) honceL hvalL hnodupL
    · intro y hy hyx
      obtain ⟨j, hj, hjb, hjget⟩ := hmemdata y hy
      exact hjb (nodup_left_inj m.data hnodupL j b y bk hjget hbk (hyx.trans hxleft.symm))
  · apply get_left_absent
    · rw [← hcap']
      exact hcap
    · show m'.right_index.length = m'.left_index.length
      rw [hll, hrl, hrlen]
      rfl
    · exact delete_bucket_right_entries m m' b (some iL) none bk hdel
        (fun i hi => by cases hi) honceR hvalR hnodupR
    · intro y hy hyx
      obtain ⟨j, hj, hjb, hjget⟩ := hmemdata y hy
      exact hjb (nodup_right_inj m.data hnodupR j b y bk hjget hbk hyx)

theorem remove_right_present (m m' : BiMap) (hwf : WF m) (x : Nat) (res : Option Nat)
    (iR b : Nat) (bk : Bucket)
    (hlook : m.lookup_index_right x = some (ProbeResult.found iR))
    (hslot : m.right_index.get? iR = some (some b))
    (hbk : m.data.get? b = some bk)
    (hrem : m.remove_right x = some (m', res)) :
    res = some bk.left ∧ m'.len = m.len - 1 ∧
    m'.get_left x = some none ∧ m'.get_right bk.left = some none := by
  obtain ⟨hcap, hrlen, hvalL, hvalR, honceL, honceR, hnodupL, hnodupR⟩ := hwf
  obtain ⟨bk2, hdel, hres⟩ := remove_right_inversion m m' x res iR b hlook hslot hrem
  obtain ⟨hbi, hbk2, hlen', _, _, hll, hrl, hkform⟩ := delete_bucket_basic _ _ _ _ _ _ hdel
  have hbkeq : bk = bk2 := Option.some_inj.mp (hbk.symm.trans hbk2)
  subst hbkeq
  have hxright : bk.right = x := by
    have hlook2 := hlook
    rw [BiMap.lookup_index_right] at hlook2
    obtain ⟨b', bucket, hgi, hdb, hlb⟩ := probe_index_found _ _ _ _ _ _ _ hlook2
    rw [hslot] at hgi
    cases hgi
    rw [hbk] at hdb
    cases hdb
    exact hlb
  have hmemdata : ∀ y ∈ m'.data, ∃ j, j < m.len ∧ j ≠ b ∧ m.data.get? j = some y :=
    data_mem_of_delete m.data m'.data b m.len rfl hlen' hkform
  have hcap' : m.current_capacity = m'.current_capacity := by
    show m.left_index.length = m'.left_index.length
    rw [hll]
  refine ⟨hres, hlen', ?_, ?_⟩
  · apply get_left_absent
    · rw [← hcap']
      exact hcap
    · show m'.right_index.length = m'.left_index.length
      rw [hll, hrl, hrlen]
      rfl
    · exact delete_bucket_right_entries m m' b none (some iR) bk hdel
        (fun i hi => by cases hi; exact hslot) honceR hvalR hnodupR
    · intro y hy hyx
      obtain ⟨j, hj, hjb, hjget⟩ := hmemdata y hy
      exact hjb (nodup_right_inj m.data hnodupR j b y bk hjget hbk (hyx.trans hxright.symm))
  · apply get_right_absent
    · rw [← hcap']
      exact hcap
    · exact delete_bucket_left_entries m m' b none (some iR) bk hdel
        (fun i hi => by cases hi) honceL hvalL hnodupL
    · intro y hy hyx
      obtain ⟨j, hj, hjb, hjget⟩ := hmemdata y hy
      exact hjb (nodup_left_inj m.data hnodupL j b y bk hjget hbk hyx)

theorem entries_lt_of_all (idx : List (Option Nat)) (n : Nat)
    (h : idx.all (fun e => match e with
      | none => true
      | some v => decide (v < n)) = true) :
    ∀ v, (some v) ∈ idx → v < n := by
  intro v hv
  have := List.all_eq_true.mp h _ hv
  simpa using this

theorem count_le_one_of (idx : List (Option Nat)) (n : Nat)
    (hval : ∀ v, (some v) ∈ idx → v < n)
    (hb : ∀ v, v < n → idx.count (some v) ≤ 1) :
    ∀ v, idx.count (some v) ≤ 1 := by
  intro v
  by_cases h : (some v) ∈ idx
  · exact hb v (hval v h)
  · rw [List.count_eq_zero_of_not_mem h]
    omega

/-- Decidable entry point for establishing `WF` on concrete states. -/
theorem WF_of_checks (m : BiMap)
    (h1 : 0 < m.current_capacity)
    (h2 : m.right_index.length = m.current_capacity)
    (h3 : m.left_index.all (fun e => match e with
      | none => true
      | some v => decide (v < m.len)) = true)
    (h4 : m.right_index.all (fun e => match e with
      | none => true
      | some v => decide (v < m.len)) = true)
    (h5 : ∀ v, v < m.len → m.left_index.count (some v) ≤ 1)
    (h6 : ∀ v, v < m.len → m.right_index.count (some v) ≤ 1)
    (h7 : m.data.Pairwise (fun a b => a.left ≠ b.left))
    (h8 : m.data.Pairwise (fun a b => a.right ≠ b.right)) : WF m := by
  have hv3 := entries_lt_of_all _ _ h3
  have hv4 := entries_lt_of_all _ _ h4
  exact ⟨h1, h2, hv3, hv4, count_le_one_of _ _ hv3 h5, count_le_one_of _ _ hv4 h6, h7, h8⟩

/-! ### Concrete example states shared by several witnesses -/

/-- The default-construction shape (`with_capacity(32)`, capacity 36) with
identity hash functions, mirroring the test suite's `IdentityHasher`. -/
def mapIdHashers : BiMap := with_capacity 32 (fun x => x) (fun x => x)

/-- `mapIdHashers` after `insert(1, 2)`. -/
def exampleMap12 : BiMap := ((mapIdHashers.insert 1 2).map Prod.fst).getD mapIdHashers

/-- `exampleMap12` after `remove_left(1)`. -/
def exampleMap12Removed : BiMap :=
  ((exampleMap12.remove_left 1).map Prod.fst).getD exampleMap12

/-- `exampleMap12` after `insert(1, 4)`: rebinding the existing left key. -/
def exampleMap12Ins14 : BiMap :=
  ((exampleMap12.insert 1 4).map Prod.fst).getD exampleMap12

/-- C5 (amended): `remove_left(l)` returns `None` and leaves the map
unchanged (not one field mutated) when the probe reports `l` unbound; when
`l` is bound — the probe finds the index slot holding bucket `b`, whose
contents are the pair `bk` — and the call completes without panicking, it
returns `Some(bk.right)`, decrements `len()` by exactly one, and afterwards
both `get_right(l)` and `get_left(bk.right)` return `None`; and symmetrically
for `remove_right`.  The completion proviso is necessary: `delete_bucket`
`unwrap`s an internal opposite-side lookup that the probe-distance defect can
make fail on a bound key (see the counterexample).  The well-formedness
hypotheses are the spec's §3 invariants of the pre-state. -/
theorem c5_remove_spec (m : BiMap) (hwf : WF m) (x : Nat) :
    (∀ i, m.lookup_index_left x = some (ProbeResult.insertAt i) →
      m.remove_left x = some (m, none)) ∧
    (∀ i, m.lookup_index_right x = some (ProbeResult.insertAt i) →
      m.remove_right x = some (m, none)) ∧
    (∀ m' res iL b bk, m.lookup_index_left x = some (ProbeResult.found iL) →
      m.left_index.get? iL = some (some b) → m.data.get? b = some bk →
      m.remove_left x = some (m', res) →
      res = some bk.right ∧ m'.len = m.len - 1 ∧
      m'.get_right x = some none ∧ m'.get_left bk.right = some none) ∧
    (∀ m' res iR b bk, m.lookup_index_right x = some (ProbeResult.found iR) →
      m.right_index.get? iR = some (some b) → m.data.get? b = some bk →
      m.remove_right x = some (m', res) →
      res = some bk.left ∧ m'.len = m.len - 1 ∧
      m'.get_left x = some none ∧ m'.get_right bk.left = some none) := by
  refine ⟨?_, ?_, ?_, ?_⟩
  · intro i hlook
    rw [BiMap.remove_left]
    simp [hlook]
  · intro i hlook
    rw [BiMap.remove_right]
    simp [hlook]
  · intro m' res iL b bk hlook hslot hbk hrem
    exact remove_left_present m m' hwf x res iL b bk hlook hslot hbk hrem
  · intro m' res iR b bk hlook hslot hbk hrem
    exact remove_right_present m m' hwf x res iR b bk hlook hslot hbk hrem

/-- Witness for `c5_remove_spec`: the spec's own concrete example,
`remove_left(1)` after `insert(1, 2)` (identity hashers, default capacity). -/
theorem c5_remove_spec_witness :
    WF exampleMap12 ∧
    exampleMap12.remove_left 1 = some (exampleMap12Removed, some 2) ∧
    (some 2 = some (Bucket.mk 1 2).right ∧
      exampleMap12Removed.len = exampleMap12.len - 1 ∧
      exampleMap12Removed.get_right 1 = some none ∧
      exampleMap12Removed.get_left (Bucket.mk 1 2).right = some none) := by
  have hwf : WF exampleMap12 := WF_of_checks _ (by decide) (by decide) (by decide)
    (by decide) (by decide) (by decide) (by decide) (by decide)
  refine ⟨hwf, rfl, ?_⟩
  exact (c5_remove_spec exampleMap12 hwf 1).2.2.1 exampleMap12Removed (some 2) 1 0
    (Bucket.mk 1 2) (by decide) (by decide) (by decide) rfl

/-- C8 (amended): the probe engine terminates on every input: for any index
array of positive length `capacity` whose occupied slots all reference
existing buckets, `probe_index` — whose loop is fuel-bounded by
`capacity + 1` iterations — returns a `found` or `insertAt` result.  (The
full-lap FullTable detection asserted by the claim does not exist in the
code; see the counterexample.) -/
theorem c8_probe_terminates (element : Nat) (hash_index : List (Option Nat))
    (h : Nat → Nat) (lookup : Bucket → Nat) (buckets : List Bucket) (capacity : Nat)
    (hcap : 0 < capacity) (hlen : hash_index.length = capacity)
    (hval : ∀ bi, (some bi) ∈ hash_index → ∃ bucket, buckets.get? bi = some bucket) :
    ∃ r, probe_index element hash_index h lookup buckets capacity = some r :=
  Option.isSome_iff_exists.mp
    (probe_index_isSome element hash_index h lookup buckets capacity hcap hlen hval)

theorem c8_probe_terminates_witness :
    (0 < 2 ∧ ([some 0, none] : List (Option Nat)).length = 2) ∧
    ∃ r, probe_index 5 [some 0, none] (fun x => x) Bucket.left [Bucket.mk 7 7] 2
      = some r :=
  ⟨⟨by decide, by decide⟩,
    c8_probe_terminates 5 [some 0, none] (fun x => x) Bucket.left [Bucket.mk 7 7] 2
      (by decide) (by decide)
      (by
        intro bi hbi
        simp only [List.mem_cons, List.not_mem_nil, or_false] at hbi
        rcases hbi with hbi | hbi
        · cases hbi
          exact ⟨Bucket.mk 7 7, rfl⟩
        · cases hbi)⟩

/-- C8 counterexample: on a 100% occupied index array (capacity 2, both slots
occupied, probing an absent element) the probe engine does not detect the
full lap and does not signal any FullTable condition — it terminates with an
ordinary `insertAt` insertion point, indistinguishable from the
element-absent answer on a non-full table, contradicting the claim that a
full lap is "treated as an unrecoverable FullTable error". -/
theorem c8_full_table_counterexample :
    probe_index 5 [some 0, some 1] (fun x => x) Bucket.left
      [Bucket.mk 10 10, Bucket.mk 11 11] 2 = some (ProbeResult.insertAt 0) := by
  decide

/-- C7: the resident probe distance computed by the probe engine (line 130:
`index.wrapping_sub(ideal).rem_euclid(capacity)`, modelled by
`probe_distance`) is NOT `(index − ideal) mod capacity` for every capacity the
map can have.  At the default capacity `36 = apply_load_factor 32`, a resident
sitting at index 0 whose ideal slot is 35 — probe distance 1 — is assigned
distance `(2^64 − 35) mod 36 = 17`, because `rem_euclid` on the unsigned
wrapped difference only agrees with the mathematical modulus when the
capacity divides `2^64`, i.e. at powers of two. -/
theorem c7_probe_distance_wrapping :
    apply_load_factor 32 = 36 ∧
    probe_distance 0 35 36 = 17 ∧
    (0 + 36 - 35) % 36 = 1 := by
  refine ⟨by decide, ?_, by decide⟩
  show (0 + 2 ^ 64 - 35) % 2 ^ 64 % 36 = 17
  decide

/-- C9 (exact-arithmetic reading): for every `n`, the map returned by
`with_capacity n` satisfies `can_fit n`.  In this model `apply_load_factor`
and `can_fit` use exact integer arithmetic (`⌊10n/9⌋ + 1` slots and
`10·(len+n) < 9·capacity`), which coincides with the code's `f64` arithmetic
for all `n` below `2^50` but not beyond (see RESULTS: the `f64` computation
itself violates the claim at `n = 6079890663557637`). -/
theorem c9_with_capacity_can_fit (n : Nat) (hl hr : Nat → Nat) :
    (with_capacity n hl hr).can_fit n = true := by
  have hlen : (with_capacity n hl hr).current_capacity = 10 * n / 9 + 1 := by
    show (List.replicate (apply_load_factor n) (none : Option Nat)).length = _
    rw [List.length_replicate, apply_load_factor]
  have hlen0 : (with_capacity n hl hr).len = 0 := rfl
  rw [BiMap.can_fit, hlen, hlen0]
  have hdm := Nat.div_add_mod (10 * n) 9
  have hmlt : (10 * n) % 9 < 9 := Nat.mod_lt _ (by omega)
  simp only [decide_eq_true_eq]
  omega

/-! ### Adversarial concrete states exhibiting the probe-distance defect -/

/-- A constant hash function — a legal deterministic caller-supplied hasher
(the spec treats hash quality as a performance concern only). -/
def constHasher35 : Nat → Nat := fun _ => 35

/-- `with_hashers(36, ...)`: capacity 36 (the same capacity the default
constructor produces via `apply_load_factor 32 = 36`), all left values
hashing to ideal slot 35, right values hashing identically. -/
def advMap : BiMap := with_hashers 36 constHasher35 (fun x => x)

/-- `advMap` after `insert(i, i)` for `i = 0, …, 21`: 22 pairs, all present in
the bucket store, with left-probe distances 0..21 from ideal slot 35. -/
def advMap22 : Option BiMap :=
  (List.range 22).foldlM (fun m i => (m.insert i i).map Prod.fst) advMap

/-- `advMap` after `insert(i, i)` for `i = 0, …, 31`: 32 pairs at capacity 36,
so `can_fit(1)` is false and the next `insert` grows the table to 72. -/
def advMap32 : Option BiMap :=
  (List.range 32).foldlM (fun m i => (m.insert i i).map Prod.fst) advMap

/-- The mirror-image adversarial state: identity left hasher, constant right
hasher (`with_hashers(36, id, const 35)`), filled with `(i, i)` for
`i = 0, …, 21` — left-side lookups are healthy, right-side lookups suffer the
wrapped probe-distance defect. -/
def advMapR22 : Option BiMap :=
  (List.range 22).foldlM (fun m i => (m.insert i i).map Prod.fst)
    (with_hashers 36 (fun x => x) constHasher35)

/-- C5 counterexample: the claim's bound case is not total — there are
reachable states where `l` is bound (`get_right l = Some r`) and
`remove_left(l)` panics instead of removing the pair: in `advMapR22`
(identity left hasher, constant right hasher) `get_right 20 = Some 20`, but
`remove_left 20` reaches `delete_bucket`, whose internal right-index lookup
of the bucket's right value `20` misses it (the wrapped probe-distance
defect on the right index), and the source `unwrap`s that lookup (lib.rs
line 241) — a panic, `none` in this model. -/
theorem c5_remove_left_panic_counterexample :
    advMapR22.map (fun m => m.get_right 20) = some (some (some 20)) ∧
    (advMapR22.bind (fun m => m.remove_left 20)).isNone = true := by
  constructor
  · decide
  · decide


/-- C1 is violated by the code: in `advMap22` the pair `(20, 20)` is stored,
yet `get_right 20` returns `None` while `get_left 20` returns `Some 20` —
the claimed equivalence fails — because the resident met at traveled distance
20 sits at true distance 20 but is assigned the wrapped distance
`(20 + 2^64 − 36·⌈…⌉) mod 36 = 0` (cf. `c7_probe_distance_wrapping`), which
stops the probe early.  A further `insert(20, 99)` then misses the stored
left value and pushes a second bucket with left value 20: two buckets share
a left value, violating the bijection invariant directly. -/
theorem c1_bijection_violated :
    advMap22.map (fun m =>
        (m.get_right 20, m.get_left 20, m.data.contains (Bucket.mk 20 20), m.len))
      = some (some none, some (some 20), true, 22) ∧
    (advMap22.bind (fun m => m.insert 20 99)).map
        (fun r => ((r.1.data.filter (fun b => b.left = 20)).length, r.1.len))
      = some (2, 23) := by
  constructor
  · decide
  · decide

/-- `with_hashers(4, id, id)` filled with `(0,0), (1,1), (2,2)` via
`try_insert`: `len = 3`, `capacity = 4`, so `can_fit(1)` is false and the next
`try_insert` grows the table. -/
def staleMap : Option BiMap :=
  (List.range 3).foldlM (fun m i => (m.try_insert i i).map Prod.fst)
    (with_hashers 4 (fun x => x) (fun x => x))

/-- C4 is violated by the code: `try_insert(5, 5)` on `staleMap` succeeds
(`Ok`), grows the table to capacity 8, but inserts the index entries at the
insertion points computed *before* the grow (ideal slot `5 mod 4 = 1`,
shifted to slot 2), not at the post-grow points `insert` would use
(ideal slot `5 mod 8 = 5`).  The pair `(5, 5)` is in the bucket store yet
`get_right 5` and `get_left 5` both return `None`; the same insertion through
`insert` leaves the pair retrievable. -/
theorem c4_try_insert_stale_growth :
    (staleMap.bind (fun m => m.try_insert 5 5)).map
        (fun r => (decide (r.2 = TryResult.ok), r.1.len, r.1.current_capacity))
      = some (true, 4, 8) ∧
    (staleMap.bind (fun m => m.try_insert 5 5)).map
        (fun r => (r.1.get_right 5, r.1.get_left 5, r.1.data.contains (Bucket.mk 5 5)))
      = some (some none, some none, true) ∧
    (staleMap.bind (fun m => m.insert 5 5)).map
        (fun r => (r.1.get_right 5, r.1.get_left 5))
      = some (some (some 5), some (some 5)) := by
  refine ⟨?_, ?_, ?_⟩
  · decide
  · decide
  · decide

/-- C10: `drain()` (modelled from the spec; the method is absent from
`src/src/lib.rs` and exercised only by the tests) yields exactly `len()`
pairs — the bucket store's contents in slot order, each stored pair exactly
once when the store has no duplicate pairs — and leaves the structure empty:
`is_empty()` holds and every lookup on the drained structure returns `None`. -/
theorem c10_drain_spec (m : BiMap)
    (hcap : 0 < m.current_capacity)
    (hlen : m.right_index.length = m.current_capacity)
    (hnodup : m.data.Nodup) :
    (m.drain).1.length = m.len ∧
    (∀ l r, (l, r) ∈ (m.drain).1 ↔ (Bucket.mk l r) ∈ m.data) ∧
    (m.drain).1.Nodup ∧
    (m.drain).2.is_empty = true ∧
    (∀ x, (m.drain).2.get_right x = some none ∧ (m.drain).2.get_left x = some none) := by
  have hinj : Function.Injective (fun b : Bucket => (b.left, b.right)) := by
    intro a b hab
    cases a
    cases b
    simpa using hab
  refine ⟨List.length_map _ _, ?_, ?_, rfl, ?_⟩
  · intro l r
    constructor
    · intro hm
      obtain ⟨b, hb, hbe⟩ := List.mem_map.mp hm
      have : b = Bucket.mk l r := by
        cases b
        simpa using hbe
      exact this ▸ hb
    · intro hm
      exact List.mem_map.mpr ⟨Bucket.mk l r, hm, rfl⟩
  · exact hnodup.map hinj
  · have hcap2 : 0 < (m.clear).current_capacity := by
      show 0 < (List.replicate m.left_index.length (none : Option Nat)).length
      rw [List.length_replicate]
      exact hcap
    have hnol : ∀ v, (some v) ∈ (m.clear).left_index → v < (m.clear).len := by
      intro v hv
      have := List.eq_of_mem_replicate hv
      cases this
    have hnor : ∀ v, (some v) ∈ (m.clear).right_index → v < (m.clear).len := by
      intro v hv
      have := List.eq_of_mem_replicate hv
      cases this
    intro x
    constructor
    · exact get_right_absent (m.clear) x hcap2 hnol (fun b hb => absurd hb (List.not_mem_nil b))
    · refine get_left_absent (m.clear) x hcap2 ?_ hnor
        (fun b hb => absurd hb (List.not_mem_nil b))
      show (List.replicate m.right_index.length (none : Option Nat)).length
        = (List.replicate m.left_index.length (none : Option Nat)).length
      rw [List.length_replicate, List.length_replicate]
      exact hlen

/-- Witness for `c10_drain_spec` at the concrete one-pair example state. -/
theorem c10_drain_spec_witness :
    (0 < exampleMap12.current_capacity ∧
      exampleMap12.right_index.length = exampleMap12.current_capacity ∧
      exampleMap12.data.Nodup) ∧
    ((exampleMap12.drain).1.length = exampleMap12.len ∧
      (∀ l r, (l, r) ∈ (exampleMap12.drain).1 ↔ (Bucket.mk l r) ∈ exampleMap12.data) ∧
      (exampleMap12.drain).1.Nodup ∧
      (exampleMap12.drain).2.is_empty = true ∧
      (∀ x, (exampleMap12.drain).2.get_right x = some none ∧
        (exampleMap12.drain).2.get_left x = some none)) :=
  ⟨⟨by decide, by decide, by decide⟩,
    c10_drain_spec exampleMap12 (by decide) (by decide) (by decide)⟩

/-! ### Spec lemmas for the insert machinery -/

theorem replace_bucket_spec (m : BiMap) (bi : Nat) (bkt : Bucket) (m' : BiMap)
    (old : Bucket) (h : m.replace_bucket bi bkt = some (m', old)) :
    m.data.get? bi = some old ∧ m'.data = m.data.set bi bkt ∧
    m'.left_index = m.left_index ∧ m'.right_index = m.right_index ∧
    m'.hasher = m.hasher ∧ m'.reverse_hasher = m.reverse_hasher := by
  rw [BiMap.replace_bucket] at h
  split at h
  · cases hg : m.data.get? bi with
    | none => rw [hg] at h; simp at h
    | some o =>
      rw [hg] at h
      simp only [Option.some_inj, Prod.mk.injEq] at h
      obtain ⟨hm', hold⟩ := h
      subst hold
      subst hm'
      exact ⟨rfl, rfl, rfl, rfl, rfl, rfl⟩
  · simp at h

theorem push_new_bucket_spec (m : BiMap) (bkt : Bucket) (li ri : Nat) (m' : BiMap)
    (h : m.push_new_bucket bkt li ri = some m') :
    m'.data = m.data ++ [bkt] ∧
    m'.hasher = m.hasher ∧ m'.reverse_hasher = m.reverse_hasher ∧
    m'.left_index.length = m.left_index.length ∧
    m'.right_index.length = m.right_index.length ∧
    (∀ v, (some v) ∈ m'.left_index → (some v) ∈ m.left_index ∨ v = m.len) ∧
    (∀ v, (some v) ∈ m'.right_index → (some v) ∈ m.right_index ∨ v = m.len) := by
  rw [BiMap.push_new_bucket] at h
  simp only [bind, Option.bind_eq_some] at h
  obtain ⟨li2, hli2, h⟩ := h
  obtain ⟨ri2, hri2, h⟩ := h
  cases h
  have hlen : (m.data ++ [bkt]).length - 1 = m.len := by
    rw [List.length_append]
    show m.data.length + 1 - 1 = m.data.length
    omega
  rw [hlen] at hli2 hri2
  refine ⟨rfl, rfl, rfl, insert_mapping_length _ _ _ _ hli2,
    insert_mapping_length _ _ _ _ hri2, ?_, ?_⟩
  · intro v hv
    exact insert_mapping_mem _ _ _ _ _ hli2 hv
  · intro v hv
    exact insert_mapping_mem _ _ _ _ _ hri2 hv

theorem insertIntoLeftBucket_spec (m : BiMap) (l r lb : Nat) (ol : Option Nat)
    (m' : BiMap) (oldR oldL : Option Nat)
    (h : m.insertIntoLeftBucket l r lb ol = some (m', oldR, oldL)) :
    ∃ b, m.data.get? lb = some b ∧ oldR = some b.right ∧ oldL = ol ∧
      m'.data = m.data.set lb (Bucket.mk l r) ∧
      m'.left_index = m.left_index ∧
      m'.hasher = m.hasher ∧ m'.reverse_hasher = m.reverse_hasher ∧
      m'.right_index.length = m.right_index.length ∧
      (∀ v, (some v) ∈ m'.right_index → (some v) ∈ m.right_index ∨ v = lb) := by
  rw [BiMap.insertIntoLeftBucket] at h
  simp only [bind, Option.bind_eq_some] at h
  obtain ⟨b, hb, h⟩ := h
  obtain ⟨res1, hres1, h⟩ := h
  cases res1 with
  | insertAt i => simp at h
  | found i =>
    simp only [Option.bind_eq_some] at h
    obtain ⟨m1, hm1, h⟩ := h
    obtain ⟨res2, hres2, h⟩ := h
    cases res2 with
    | found j => simp at h
    | insertAt j =>
      simp only [Option.bind_eq_some] at h
      obtain ⟨ri2, hri2, h⟩ := h
      obtain ⟨rp, hrp, h⟩ := h
      simp only [Option.some_inj, Prod.mk.injEq] at h
      obtain ⟨hm', holdR, holdL⟩ := h
      subst hm'
      subst holdR
      subst holdL
      obtain ⟨hd1, hl1, hh1, hrh1, hdm1⟩ := delete_mapping_right_spec _ _ _ hm1
      obtain ⟨hget, hdata, hli, hri, hh, hrh⟩ := replace_bucket_spec _ _ _ _ _ hrp
      have hb2 : m.data.get? lb = some b := hb
      have hdm1len : m1.right_index.length = m.right_index.length :=
        delete_mapping_length _ _ _ _ _ _ _ hdm1
      have hri2len : ri2.length = m1.right_index.length :=
        insert_mapping_length _ _ _ _ hri2
      have hrpget : m1.data.get? lb = some b := by rw [hd1]; exact hb
      have hbold : rp.2 = b := by
        have : ({ m1 with right_index := ri2 } : BiMap).data.get? lb = some b := hrpget
        rw [hget] at this
        exact Option.some_inj.mp this
      refine ⟨b, hb, by rw [hbold], rfl, ?_, ?_, ?_, ?_, ?_, ?_⟩
      · rw [hdata, hd1]
      · rw [hli, hl1]
      · rw [hh, hh1]
      · rw [hrh, hrh1]
      · rw [hri]
        show ri2.length = m.right_index.length
        rw [hri2len, hdm1len]
      · intro v hv
        rw [hri] at hv
        have hv2 := insert_mapping_mem _ _ _ _ _ hri2 hv
        rcases hv2 with hv2 | hv2
        · left
          have hres1b := hres1
          rw [BiMap.lookup_index_right] at hres1b
          obtain ⟨bi2, bucket2, hgi2, _, _⟩ := probe_index_found _ _ _ _ _ _ _ hres1b
          exact delete_mapping_mem _ _ _ _ _ _ _ _ hgi2 hdm1 v hv2
        · right
          exact hv2

theorem slotBucket_some (idx : List (Option Nat)) (i b : Nat)
    (h : slotBucket idx i = some b) : idx.get? i = some (some b) := by
  rw [slotBucket] at h
  cases hg : idx.get? i with
  | none => rw [hg] at h; simp at h
  | some e =>
    cases e with
    | none => rw [hg] at h; simp at h
    | some v =>
      rw [hg] at h
      simp only [Option.some_inj] at h
      rw [h]

theorem mem_set_cases {α : Type} (l : List α) (i : Nat) (a x : α)
    (hx : x ∈ l.set i a) : x = a ∨ ∃ k, k ≠ i ∧ l.get? k = some x := by
  obtain ⟨k, hk⟩ := List.get?_of_mem hx
  by_cases hki : k = i
  · subst hki
    have hklt : k < l.length := by
      have := lt_of_get?_eq_some _ _ _ hk
      rw [List.length_set] at this
      exact this
    rw [List.get?_set_eq_of_lt a hklt] at hk
    exact Or.inl (Option.some_inj.mp hk).symm
  · rw [List.get?_set_ne _ _ (fun he => hki he.symm)] at hk
    exact Or.inr ⟨k, hki, hk⟩

/-- Replacing a bucket's right value (keeping its left value) does not change
any left-side lookup. -/
theorem lookup_left_after_set (m m' : BiMap) (lb l r : Nat) (b : Bucket)
    (hb : m.data.get? lb = some b) (hbl : b.left = l)
    (hdata : m'.data = m.data.set lb (Bucket.mk l r))
    (hli : m'.left_index = m.left_index)
    (hh : m'.hasher = m.hasher) :
    ∀ x, m'.lookup_index_left x = m.lookup_index_left x := by
  intro x
  rw [BiMap.lookup_index_left, BiMap.lookup_index_left]
  have hcap : m'.current_capacity = m.current_capacity := by
    show m'.left_index.length = m.left_index.length
    rw [hli]
  rw [hli, hh, hcap]
  apply probe_index_congr_proj
  intro bi
  rw [hdata]
  by_cases hbi : bi = lb
  · subst hbi
    have hlt : bi < m.data.length := lt_of_get?_eq_some _ _ _ hb
    rw [List.get?_set_eq_of_lt _ hlt, hb]
    simp only [Option.map_some']
    rw [hbl]
  · rw [List.get?_set_ne _ _ (fun he => hbi he.symm)]

theorem get_right_found (m : BiMap) (x i b : Nat) (bk : Bucket)
    (hlook : m.lookup_index_left x = some (ProbeResult.found i))
    (hslot : slotBucket m.left_index i = some b)
    (hbk : m.data.get? b = some bk) :
    m.get_right x = some (some bk.right) := by
  simp only [BiMap.get_right, hlook, hslot, hbk]

theorem get_right_insertPoint (m : BiMap) (x i : Nat)
    (hlook : m.lookup_index_left x = some (ProbeResult.insertAt i)) :
    m.get_right x = some none := by
  simp only [BiMap.get_right, hlook]

theorem get_left_found (m : BiMap) (x i b : Nat) (bk : Bucket)
    (hlook : m.lookup_index_right x = some (ProbeResult.found i))
    (hslot : slotBucket m.right_index i = some b)
    (hbk : m.data.get? b = some bk) :
    m.get_left x = some (some bk.left) := by
  simp only [BiMap.get_left, hlook, hslot, hbk]

theorem get_left_insertPoint (m : BiMap) (x i : Nat)
    (hlook : m.lookup_index_right x = some (ProbeResult.insertAt i)) :
    m.get_left x = some none := by
  simp only [BiMap.get_left, hlook]

/-- C3 counterexample: the claim's "for every map state" includes inserts
that trigger the automatic grow, and there the returned pair is *not* what
`get_right`/`get_left` reported before the call: in `advMap32` (len 32,
capacity 36, so `can_fit(1)` is false) the pre-call `get_right 20` is `None`
(the wrapped probe-distance defect hides the stored pair `(20, 20)`), yet
`insert(20, 99)` first grows the table to capacity 72 — rebuilding the index
arrays and un-hiding the pair — and then returns `(Some 20, None)`. -/
theorem c3_insert_growth_counterexample :
    advMap32.map (fun m => (m.get_right 20, m.can_fit 1, m.len)) =
      some (some none, false, 32) ∧
    (advMap32.bind (fun m => m.insert 20 99)).map
        (fun res => (res.2.1, res.2.2, res.1.len, res.1.current_capacity)) =
      some (some 20, none, 32, 72) := by
  constructor
  · decide
  · set_option maxRecDepth 100000 in decide

/-- C3 (amended): for every well-formed map state with room for one more pair
(`can_fit(1)`, so no grow runs) on which the call completes without
panicking, `insert(left, right)` returns exactly the pair (the right value
previously bound to `left`, the left value previously bound to `right`) —
i.e. what `get_right left` and `get_left right` returned before the call,
each component `None` when the corresponding key was absent.  In particular,
when only `left` was bound (the left probe finds a slot, the right probe
reports an insertion point and no bucket holds `right`), afterwards
`get_right left = Some right` and `get_left old_right = None`.  (When the
call grows the table first, the returned pair reflects the post-grow probes
and can differ from the pre-call lookups: see the counterexample.) -/
theorem c3_insert_returns_previous_bindings (m m' : BiMap) (hwf : WF m)
    (l r : Nat) (oldR oldL : Option Nat)
    (hfit : m.can_fit 1 = true)
    (h : m.insert l r = some (m', oldR, oldL)) :
    m.get_right l = some oldR ∧ m.get_left r = some oldL ∧
    (∀ iL j oldr, m.lookup_index_left l = some (ProbeResult.found iL) →
      m.lookup_index_right r = some (ProbeResult.insertAt j) →
      (∀ b ∈ m.data, b.right ≠ r) →
      oldR = some oldr →
      m'.get_right l = some (some r) ∧ m'.get_left oldr = some none) := by
  obtain ⟨hcap, hrlen, hvalL, hvalR, honceL, honceR, hnodupL, hnodupR⟩ := hwf
  rw [BiMap.insert] at h
  split at h
  case isFalse hc => exact absurd hfit hc
  case isTrue =>
  simp only [bind, Option.some_bind] at h
  cases hlookL : m.lookup_index_left l with
  | none => rw [hlookL] at h; simp at h
  | some lres =>
  rw [hlookL] at h
  simp only [Option.some_bind] at h
  cases hlookR : m.lookup_index_right r with
  | none => rw [hlookR] at h; simp at h
  | some rres =>
  rw [hlookR] at h
  simp only [Option.some_bind] at h
  cases lres with
  | found iL =>
    dsimp only at h
    cases hsL : slotBucket m.left_index iL with
    | none => rw [hsL] at h; simp at h
    | some lb =>
    rw [hsL] at h
    simp only [Option.some_bind] at h
    have hslotL := slotBucket_some _ _ _ hsL
    have hlbval : lb < m.len := hvalL lb (List.get?_mem hslotL)
    obtain ⟨blb, hblb⟩ := get?_exists_of_lt m.data lb hlbval
    have hblbl : blb.left = l := by
      have hlook2 := hlookL
      rw [BiMap.lookup_index_left] at hlook2
      obtain ⟨bi', bucket', hgi', hdb', hlb'⟩ := probe_index_found _ _ _ _ _ _ _ hlook2
      rw [hslotL] at hgi'
      cases hgi'
      rw [hblb] at hdb'
      cases hdb'
      exact hlb'
    cases rres with
    | found iR =>
      dsimp only at h
      cases hsR : slotBucket m.right_index iR with
      | none => rw [hsR] at h; simp at h
      | some rb =>
      rw [hsR] at h
      simp only [Option.some_bind] at h
      have hslotR := slotBucket_some _ _ _ hsR
      have hrbval : rb < m.len := hvalR rb (List.get?_mem hslotR)
      obtain ⟨brb, hbrb⟩ := get?_exists_of_lt m.data rb hrbval
      have hbrbr : brb.right = r := by
        have hlook2 := hlookR
        rw [BiMap.lookup_index_right] at hlook2
        obtain ⟨bi', bucket', hgi', hdb', hlb'⟩ := probe_index_found _ _ _ _ _ _ _ hlook2
        rw [hslotR] at hgi'
        cases hgi'
        rw [hbrb] at hdb'
        cases hdb'
        exact hlb'
      split at h
      case isTrue hne =>
        -- both exist, different buckets
        simp only [Option.bind_eq_some] at h
        obtain ⟨rr, hdel, h⟩ := h
        obtain ⟨hrblt, hbk, hlen1, _, _, _, _, hkform⟩ :=
          delete_bucket_basic _ _ _ _ _ _ hdel
        have hbkbrb : rr.2 = brb := by
          rw [hbrb] at hbk
          exact (Option.some_inj.mp hbk).symm
        obtain ⟨b2, hb2, holdR, holdL, _, _, _, _, _, _⟩ :=
          insertIntoLeftBucket_spec _ _ _ _ _ _ _ _ h
        have hb2blb : b2 = blb := by
          have hgoal : rr.1.data.get? (if lb = rr.1.len then rb else lb)
              = m.data.get? lb := by
            by_cases hcase : lb = rr.1.len
            · rw [if_pos hcase]
              have hlb_last : lb = m.len - 1 := by rw [hcase, hlen1]
              have hrbne : rb ≠ m.len - 1 := by
                rw [← hlb_last]
                exact fun he => hne he.symm
              have hrblt2 : rb < m.len - 1 := by omega
              rw [hkform rb hrblt2, if_pos rfl, hlb_last]
            · rw [if_neg hcase]
              have hlbne : lb ≠ m.len - 1 := by
                rw [hlen1] at hcase
                exact hcase
              have hlblt2 : lb < m.len - 1 := by omega
              rw [hkform lb hlblt2, if_neg hne]
          rw [hgoal, hblb] at hb2
          exact (Option.some_inj.mp hb2).symm
        refine ⟨?_, ?_, ?_⟩
        · rw [get_right_found m l iL lb blb hlookL hsL hblb, holdR, hb2blb]
        · rw [get_left_found m r iR rb brb hlookR hsR hbrb, holdL, hbkbrb]
        · intro iL' j' oldr heq1 heq2 habs holdr
          simp at heq2
      case isFalse hne =>
        -- same bucket: no mutation
        simp only [Option.some_inj, Prod.mk.injEq] at h
        obtain ⟨hm', holdR, holdL⟩ := h
        have hlbrb : lb = rb := by
          by_contra hc
          exact hne hc
        have hblbrb : blb = brb := by
          rw [hlbrb, hbrb] at hblb
          exact (Option.some_inj.mp hblb).symm
        refine ⟨?_, ?_, ?_⟩
        · rw [get_right_found m l iL lb blb hlookL hsL hblb, hblbrb, hbrbr, ← holdR]
        · rw [get_left_found m r iR rb brb hlookR hsR hbrb, ← hblbrb, hblbl, ← holdL]
        · intro iL' j' oldr heq1 heq2 habs holdr
          simp at heq2
    | insertAt j =>
      -- only left exists
      obtain ⟨b2, hb2, holdR, holdL, hdata', hli', hh', hrh', hrlen', hrmem'⟩ :=
        insertIntoLeftBucket_spec _ _ _ _ _ _ _ _ h
      have hb2blb : b2 = blb := by
        rw [hblb] at hb2
        exact (Option.some_inj.mp hb2).symm
      have hb2l : b2.left = l := by rw [hb2blb]; exact hblbl
      refine ⟨?_, ?_, ?_⟩
      · rw [get_right_found m l iL lb blb hlookL hsL hblb, holdR, hb2blb]
      · rw [get_left_insertPoint m r j hlookR, holdL]
      · intro iL' j' oldr heq1 heq2 habs holdr
        have holdreq : oldr = b2.right := by
          rw [holdR] at holdr
          exact (Option.some_inj.mp holdr).symm
        have hlookeq := lookup_left_after_set m m' lb l r b2 hb2 hb2l hdata' hli' hh' l
        have hlen'eq : m'.len = m.len := by
          show m'.data.length = m.data.length
          rw [hdata', List.length_set]
        constructor
        · refine get_right_found m' l iL lb (Bucket.mk l r) ?_ ?_ ?_
          · rw [hlookeq, hlookL]
          · show slotBucket m'.left_index iL = some lb
            rw [hli']
            exact hsL
          · rw [hdata']
            exact List.get?_set_eq_of_lt _ hlbval
        · apply get_left_absent
          · show 0 < m'.left_index.length
            rw [hli']
            exact hcap
          · show m'.right_index.length = m'.left_index.length
            rw [hli', hrlen']
            exact hrlen
          · intro v hv
            rcases hrmem' v hv with hv2 | hv2
            · rw [hlen'eq]
              exact hvalR v hv2
            · rw [hlen'eq, hv2]
              exact hlbval
          · intro y hy hyr
            rw [hdata'] at hy
            rcases mem_set_cases _ _ _ _ hy with hy2 | ⟨k, hk, hy2⟩
            · have hyr2 : y.right = r := by rw [hy2]
              rw [holdreq] at hyr
              have hb2mem : b2 ∈ m.data := List.get?_mem hb2
              exact habs b2 hb2mem (by rw [← hyr, hyr2])
            · rw [holdreq] at hyr
              exact hk (nodup_right_inj m.data hnodupR k lb y b2 hy2 hb2 hyr)
  | insertAt i =>
    dsimp only at h
    cases rres with
    | found iR =>
      -- only right exists
      dsimp only at h
      cases hsR : slotBucket m.right_index iR with
      | none => rw [hsR] at h; simp at h
      | some rb =>
      rw [hsR] at h
      simp only [Option.some_bind, Option.bind_eq_some] at h
      obtain ⟨b, hb, h⟩ := h
      obtain ⟨lres2, hlres2, h⟩ := h
      cases lres2 with
      | insertAt k => simp at h
      | found k =>
        simp only [Option.bind_eq_some] at h
        obtain ⟨m1, hm1, h⟩ := h
        obtain ⟨li2, hli2, h⟩ := h
        obtain ⟨rp, hrp, h⟩ := h
        simp only [Option.some_inj, Prod.mk.injEq] at h
        obtain ⟨hm', holdR, holdL⟩ := h
        obtain ⟨hd1, hr1, hh1, hrh1, hdm1⟩ := delete_mapping_left_spec _ _ _ hm1
        obtain ⟨hget, hdata, hli, hri, hh, hrh⟩ := replace_bucket_spec _ _ _ _ _ hrp
        have hrpget : rp.2 = b := by
          have hx : ({ m1 with left_index := li2 } : BiMap).data.get? rb = some b := by
            show m1.data.get? rb = some b
            rw [hd1]
            exact hb
          rw [hget] at hx
          exact Option.some_inj.mp hx
        refine ⟨?_, ?_, ?_⟩
        · rw [get_right_insertPoint m l i hlookL, ← holdR]
        · rw [get_left_found m r iR rb b hlookR hsR hb, ← holdL, hrpget]
        · intro iL' j' oldr heq1 heq2 habs holdr
          simp at heq1
    | insertAt j =>
      -- neither exists
      dsimp only at h
      simp only [Option.bind_eq_some] at h
      obtain ⟨m1, hm1, h⟩ := h
      simp only [Option.some_inj, Prod.mk.injEq] at h
      obtain ⟨hm', holdR, holdL⟩ := h
      refine ⟨?_, ?_, ?_⟩
      · rw [get_right_insertPoint m l i hlookL, ← holdR]
      · rw [get_left_insertPoint m r j hlookR, ← holdL]
      · intro iL' j' oldr heq1 heq2 habs holdr
        simp at heq1

theorem c3_insert_returns_previous_bindings_witness :
    exampleMap12.get_right 1 = some (some 2) ∧
    exampleMap12.get_left 4 = some none ∧
    exampleMap12Ins14.get_right 1 = some (some 4) ∧
    exampleMap12Ins14.get_left 2 = some none := by
  have hwf : WF exampleMap12 := WF_of_checks _ (by decide) (by decide) (by decide)
    (by decide) (by decide) (by decide) (by decide) (by decide)
  have hins : exampleMap12.insert 1 4 = some (exampleMap12Ins14, some 2, none) := rfl
  have hmain := c3_insert_returns_previous_bindings exampleMap12 exampleMap12Ins14 hwf
    1 4 (some 2) none (by decide) hins
  have hpart := hmain.2.2 1 4 2 (by decide) (by decide) (by decide) rfl
  exact ⟨hmain.1, hmain.2.1, hpart.1, hpart.2⟩

/-- `exampleMap12` after `insert(3, 4)`: the two-pair state of the spec's
cross-conflict example. -/
def exampleMap1234 : BiMap := ((exampleMap12.insert 3 4).map Prod.fst).getD exampleMap12

theorem resizeGo_lengths (hl hr : Nat → Nat) (data : List Bucket) (nc : Nat) :
    ∀ (bs : List Bucket) (bi : Nat) (li ri li2 ri2 : List (Option Nat)),
      resizeGo hl hr data nc bi bs li ri = some (li2, ri2) →
      li2.length = li.length ∧ ri2.length = ri.length := by
  intro bs
  induction bs with
  | nil =>
    intro bi li ri li2 ri2 h
    rw [resizeGo] at h
    simp only [Option.some_inj, Prod.mk.injEq] at h
    exact ⟨by rw [← h.1], by rw [← h.2]⟩
  | cons b rest ih =>
    intro bi li ri li2 ri2 h
    rw [resizeGo] at h
    simp only [bind, Option.bind_eq_some] at h
    obtain ⟨p1, hp1, h⟩ := h
    obtain ⟨p2, hp2, h⟩ := h
    cases p1 with
    | found i => simp at h
    | insertAt lei =>
      cases p2 with
      | found j => simp at h
      | insertAt rei =>
        simp only [Option.bind_eq_some] at h
        obtain ⟨li1, hli1, h⟩ := h
        obtain ⟨ri1, hri1, h⟩ := h
        obtain ⟨h1, h2⟩ := ih (bi + 1) li1 ri1 li2 ri2 h
        exact ⟨by rw [h1, insert_mapping_length _ _ _ _ hli1],
          by rw [h2, insert_mapping_length _ _ _ _ hri1]⟩

theorem grow_spec (m g : BiMap) (h : m.grow = some g) :
    g.data = m.data ∧ g.current_capacity = 2 * m.current_capacity := by
  rw [BiMap.grow, BiMap.resize] at h
  split at h
  · simp only [bind, Option.bind_eq_some] at h
    obtain ⟨p, hp, h⟩ := h
    simp only [Option.some_inj] at h
    obtain ⟨h1, h2⟩ := resizeGo_lengths _ _ _ _ _ _ _ _ _ _ hp
    refine ⟨by rw [← h], ?_⟩
    show g.left_index.length = 2 * m.left_index.length
    rw [← h]
    show p.1.length = 2 * m.left_index.length
    rw [h1, List.length_replicate]
    rfl
  · simp at h

/-- After a successful `insert` on a state that already had room (`can_fit(1)`
true, so no `grow` runs), the store gained at most one bucket and the index
capacity is unchanged. -/
theorem insert_len_cap_of_fit (m m' : BiMap) (l r : Nat) (oldR oldL : Option Nat)
    (hfit : m.can_fit 1 = true)
    (h : m.insert l r = some (m', oldR, oldL)) :
    m'.len ≤ m.len + 1 ∧ m'.current_capacity = m.current_capacity := by
  rw [BiMap.insert] at h
  split at h
  case isFalse hc => exact absurd hfit hc
  case isTrue =>
  simp only [bind, Option.some_bind] at h
  cases hlookL : m.lookup_index_left l with
  | none => rw [hlookL] at h; simp at h
  | some lres =>
  rw [hlookL] at h
  simp only [Option.some_bind] at h
  cases hlookR : m.lookup_index_right r with
  | none => rw [hlookR] at h; simp at h
  | some rres =>
  rw [hlookR] at h
  simp only [Option.some_bind] at h
  cases lres with
  | found iL =>
    dsimp only at h
    cases hsL : slotBucket m.left_index iL with
    | none => rw [hsL] at h; simp at h
    | some lb =>
    rw [hsL] at h
    simp only [Option.some_bind] at h
    cases rres with
    | found iR =>
      dsimp only at h
      cases hsR : slotBucket m.right_index iR with
      | none => rw [hsR] at h; simp at h
      | some rb =>
      rw [hsR] at h
      simp only [Option.some_bind] at h
      split at h
      case isTrue hne =>
        simp only [Option.bind_eq_some] at h
        obtain ⟨rr, hdel, h⟩ := h
        obtain ⟨_, _, hlen1, _, _, hlil, _, _⟩ := delete_bucket_basic _ _ _ _ _ _ hdel
        obtain ⟨b2, hb2, _, _, hdata2, hli2, _, _, _, _⟩ :=
          insertIntoLeftBucket_spec _ _ _ _ _ _ _ _ h
        constructor
        · show m'.data.length ≤ m.len + 1
          rw [hdata2, List.length_set]
          have : rr.1.data.length = m.len - 1 := hlen1
          omega
        · show m'.left_index.length = m.left_index.length
          rw [hli2, hlil]
      case isFalse hne =>
        simp only [Option.some_inj, Prod.mk.injEq] at h
        obtain ⟨hm', _, _⟩ := h
        rw [← hm']
        exact ⟨Nat.le_succ _, rfl⟩
    | insertAt j =>
      obtain ⟨b2, hb2, _, _, hdata2, hli2, _, _, _, _⟩ :=
        insertIntoLeftBucket_spec _ _ _ _ _ _ _ _ h
      constructor
      · show m'.data.length ≤ m.len + 1
        rw [hdata2, List.length_set]
        exact Nat.le_succ _
      · show m'.left_index.length = m.left_index.length
        rw [hli2]
  | insertAt i =>
    dsimp only at h
    cases rres with
    | found iR =>
      dsimp only at h
      cases hsR : slotBucket m.right_index iR with
      | none => rw [hsR] at h; simp at h
      | some rb =>
      rw [hsR] at h
      simp only [Option.some_bind, Option.bind_eq_some] at h
      obtain ⟨b, hb, h⟩ := h
      obtain ⟨lres2, hlres2, h⟩ := h
      cases lres2 with
      | insertAt k => simp at h
      | found k =>
        simp only [Option.bind_eq_some] at h
        obtain ⟨m1, hm1, h⟩ := h
        obtain ⟨li2, hli2, h⟩ := h
        obtain ⟨rp, hrp, h⟩ := h
        simp only [Option.some_inj, Prod.mk.injEq] at h
        obtain ⟨hm', _, _⟩ := h
        obtain ⟨hd1, hr1, hh1, hrh1, hdm1⟩ := delete_mapping_left_spec _ _ _ hm1
        obtain ⟨_, hdata, hli, _, _, _⟩ := replace_bucket_spec _ _ _ _ _ hrp
        constructor
        · show m'.data.length ≤ m.len + 1
          rw [← hm']
          rw [hdata, List.length_set]
          show m1.data.length ≤ m.len + 1
          rw [hd1]
          exact Nat.le_succ _
        · show m'.left_index.length = m.left_index.length
          rw [← hm', hli]
          show li2.length = m.left_index.length
          rw [insert_mapping_length _ _ _ _ hli2]
          show m1.left_index.length = m.left_index.length
          rw [delete_mapping_length _ _ _ _ _ _ _ hdm1]
    | insertAt j =>
      dsimp only at h
      simp only [Option.bind_eq_some] at h
      obtain ⟨m1, hm1, h⟩ := h
      simp only [Option.some_inj, Prod.mk.injEq] at h
      obtain ⟨hm', _, _⟩ := h
      obtain ⟨hdata, _, _, hlil, _, _, _⟩ := push_new_bucket_spec _ _ _ _ _ hm1
      constructor
      · show m'.data.length ≤ m.len + 1
        rw [← hm', hdata, List.length_append]
        show m.data.length + 1 ≤ m.data.length + 1
        exact Nat.le_refl _
      · show m'.left_index.length = m.left_index.length
        rw [← hm']
        exact hlil

theorem load_bound_grow_arith (cap len : Nat) (h : 10 * len < 9 * cap) :
    10 * (len + 1) < 9 * (2 * cap) := by
  have ha : cap = 1 ∨ 2 ≤ cap := by omega
  rcases ha with h1 | h2
  · subst h1
    omega
  · omega

/-- C6: `insert` and successful `try_insert` preserve the load bound
`len() < capacity × MAX_LOAD_FACTOR` (in the exact model,
`10 · len < 9 · capacity`): if the bound holds before the call, it holds
immediately after the call completes, the automatic `grow` included. -/
theorem c6_load_bound_preserved (m : BiMap) (l r : Nat)
    (hload : 10 * m.len < 9 * m.current_capacity) :
    (∀ m' oldR oldL, m.insert l r = some (m', oldR, oldL) →
      10 * m'.len < 9 * m'.current_capacity) ∧
    (∀ m' tres, m.try_insert l r = some (m', tres) →
      10 * m'.len < 9 * m'.current_capacity) := by
  constructor
  · intro m' oldR oldL h
    by_cases hfit : m.can_fit 1 = true
    · obtain ⟨hlen, hcap⟩ := insert_len_cap_of_fit m m' l r oldR oldL hfit h
      have hfit2 : 10 * (m.len + 1) < 9 * m.current_capacity := of_decide_eq_true hfit
      rw [hcap]
      omega
    · rw [BiMap.insert] at h
      split at h
      next hc => exact absurd hc hfit
      next hc =>
      simp only [bind, Option.bind_eq_some] at h
      obtain ⟨g, hg, h⟩ := h
      obtain ⟨hgd, hgc⟩ := grow_spec _ _ hg
      have hglen : g.len = m.len := by show g.data.length = m.data.length; rw [hgd]
      have hgfit : g.can_fit 1 = true := by
        apply decide_eq_true
        rw [hglen, hgc]
        exact load_bound_grow_arith _ _ hload
      have hins : g.insert l r = some (m', oldR, oldL) := by
        rw [BiMap.insert, if_pos hgfit]
        simp only [bind, Option.some_bind, Option.bind_eq_some]
        exact h
      obtain ⟨hlen, hcap⟩ := insert_len_cap_of_fit g m' l r oldR oldL hgfit hins
      have hfit2 : 10 * (g.len + 1) < 9 * g.current_capacity := of_decide_eq_true hgfit
      rw [hcap]
      omega
  · intro m' tres h
    rw [BiMap.try_insert] at h
    simp only [bind, Option.bind_eq_some] at h
    obtain ⟨lres, hlres, h⟩ := h
    obtain ⟨rres, hrres, h⟩ := h
    cases lres with
    | found iL =>
      dsimp only at h
      simp only [Option.bind_eq_some] at h
      obtain ⟨bi, hbi, h⟩ := h
      obtain ⟨b, hbb, h⟩ := h
      simp only [Option.some_bind] at h
      cases rres with
      | found j =>
        dsimp only at h
        simp only [Option.bind_eq_some] at h
        obtain ⟨bj, hbj, h⟩ := h
        obtain ⟨b2, hb2, h⟩ := h
        obtain ⟨b3, hb3, rfl, htres⟩ := h
        exact hload
      | insertAt rj =>
        dsimp only at h
        obtain ⟨er, her, rfl, htres⟩ := h
        exact hload
    | insertAt li =>
      cases rres with
      | found iR =>
        dsimp only at h
        simp only [Option.some_bind, Option.bind_eq_some, Option.some_inj,
          Prod.mk.injEq] at h
        obtain ⟨bj, hbj, h⟩ := h
        obtain ⟨b2, hb2, rfl, htres⟩ := h
        exact hload
      | insertAt ri =>
        dsimp only at h
        split at h
        next hfit =>
          simp only [Option.some_bind, Option.bind_eq_some] at h
          obtain ⟨m2, hm2, h⟩ := h
          simp only [Option.some_inj, Prod.mk.injEq] at h
          obtain ⟨hdata, _, _, hlil, _, _, _⟩ := push_new_bucket_spec _ _ _ _ _ hm2
          have hm2len : m2.len = m.len + 1 := by
            show m2.data.length = m.data.length + 1
            rw [hdata, List.length_append]
            rfl
          have hm2cap : m2.current_capacity = m.current_capacity := hlil
          have hfit2 : 10 * (m.len + 1) < 9 * m.current_capacity := of_decide_eq_true hfit
          rw [← h.1, hm2len, hm2cap]
          omega
        next hfit =>
          simp only [Option.bind_eq_some] at h
          obtain ⟨m1, hm1, h⟩ := h
          obtain ⟨m2, hm2, h⟩ := h
          simp only [Option.some_inj, Prod.mk.injEq] at h
          obtain ⟨hdata, _, _, hlil, _, _, _⟩ := push_new_bucket_spec _ _ _ _ _ hm2
          have hm2len : m2.len = m1.len + 1 := by
            show m2.data.length = m1.data.length + 1
            rw [hdata, List.length_append]
            rfl
          have hm2cap : m2.current_capacity = m1.current_capacity := hlil
          obtain ⟨hgd, hgc⟩ := grow_spec _ _ hm1
          have hglen : m1.len = m.len := by show m1.data.length = m.data.length; rw [hgd]
          rw [← h.1, hm2len, hm2cap, hglen, hgc]
          exact load_bound_grow_arith _ _ hload

theorem c6_load_bound_preserved_witness :
    10 * exampleMap12.len < 9 * exampleMap12.current_capacity ∧
    10 * exampleMap1234.len < 9 * exampleMap1234.current_capacity := by
  have hload : 10 * exampleMap12.len < 9 * exampleMap12.current_capacity := by decide
  have h := (c6_load_bound_preserved exampleMap12 3 4 hload).1 exampleMap1234 none none rfl
  exact ⟨hload, h⟩

end Habib
